import Mathlib

/-!
Verification development for the siva-backed billy filesystem
(`filesystem.go`, `file.go`).

Shallow embedding conventions:
* A path is represented by its list of `/`-separated components
  (`Path := List String`); the Go string `"a/sub/y.txt"` is `["a", "sub", "y.txt"]`
  and the root `""` is `[]`.  Go's string operations on slash-delimited names
  (`strings.HasPrefix(name, dir+"/")`, `strings.Split(name, "/")`,
  `strings.Count(dir+"/", "/")`, `len(name) > len(dir+"/")`) are translated to
  the corresponding component-list operations (`List.isPrefixOf`, the list
  itself, `List.length`, proper-prefix); the translation is exact for names
  whose components are nonempty, `/`-free and contain no glob metacharacters.
* Timestamps are `Nat` (the filesystem state carries a logical clock standing
  for `time.Now()`); byte contents are `List Nat`.
* The archive codec (`go-siva`) is an external collaborator; its contract is
  modelled from the spec where noted (append log, index of live entries).
* Fallible Go functions returning `(T, error)` become `Except Err T`.
-/

namespace SivaSpec

/-- A slash-separated path, as its list of components. -/
abbrev Path := List String

/-- One archive record as seen through the codec index: name, permission bits,
modification time, deleted flag, and the bytes appended after its header
(`siva.IndexEntry` / `siva.Header`). -/
structure Entry where
  name : Path
  mode : Nat
  modTime : Nat
  deleted : Bool
  content : List Nat
deriving Repr, DecidableEq

/-- `os.FileInfo` as produced by this package.  Modelled from the spec:
`fileinfo.go` is not among the provided sources; per the spec a file info
carries the base name, size, mode, modification time and a directory flag. -/
structure FileInfo where
  name : String
  size : Nat
  mode : Nat
  modTime : Nat
  isDir : Bool
deriving Repr, DecidableEq

/-- The error values surfaced by the package (`filesystem.go` vars,
`billy.ErrNotSupported`, `os.ErrNotExist`, `os.ErrClosed`, the
`syscall.ENOTEMPTY` path error, and codec-level failures). -/
inductive Err where
  | nonSeekable                -- ErrNonSeekableFile
  | fileWriteModeAlreadyOpen   -- ErrFileWriteModeAlreadyOpen
  | readOnlyFile               -- ErrReadOnlyFile
  | writeOnlyFile              -- ErrWriteOnlyFile
  | readOnlyFilesystem         -- ErrReadOnlyFilesystem
  | offsetReadWrite            -- ErrOffsetReadWrite
  | notSupported               -- billy.ErrNotSupported
  | notExist                   -- os.ErrNotExist
  | notEmpty (p : Path)        -- &os.PathError{Op: "remove", Err: syscall.ENOTEMPTY}
  | notDir (p : Path)          -- &os.PathError{Op: "mkdir", Err: syscall.ENOTDIR}
  | closed                     -- os.ErrClosed
  | eof                        -- io.EOF
  | writerClosed               -- codec write on a closed writer
  | invalidWhence              -- io.SectionReader errWhence
  | negativePosition           -- io.SectionReader errOffset
deriving Repr, DecidableEq

instance {ε α : Type} [DecidableEq ε] [DecidableEq α] :
    DecidableEq (Except ε α) := fun a b =>
  match a, b with
  | .ok x, .ok y =>
    if h : x = y then isTrue (by rw [h])
    else isFalse (by intro hc; cases hc; exact h rfl)
  | .error x, .error y =>
    if h : x = y then isTrue (by rw [h])
    else isFalse (by intro hc; cases hc; exact h rfl)
  | .ok _, .error _ => isFalse (fun hc => Except.noConfusion hc)
  | .error _, .ok _ => isFalse (fun hc => Except.noConfusion hc)

/-- `os.O_RDONLY` (zero on every platform Go supports). -/
def O_RDONLY : Nat := 0
/-- `os.O_WRONLY`. -/
def O_WRONLY : Nat := 1
/-- `os.O_RDWR`. -/
def O_RDWR : Nat := 2
/-- `os.O_CREATE`. -/
def O_CREATE : Nat := 64
/-- `os.O_TRUNC`. -/
def O_TRUNC : Nat := 512

/-- `billy.WriteCapability`. -/
def WriteCapability : Nat := 1
/-- `billy.ReadCapability`. -/
def ReadCapability : Nat := 2
/-- `billy.ReadAndWriteCapability`. -/
def ReadAndWriteCapability : Nat := 4
/-- `billy.SeekCapability`. -/
def SeekCapability : Nat := 8

/-- Bitwise complement on the 64-bit capability word (Go's `^c` on a
`billy.Capability`). -/
def capComplement (c : Nat) : Nat := (2 ^ 64 - 1) ^^^ c

/-- `sivaCapabilities = billy.ReadCapability | billy.WriteCapability |
billy.SeekCapability` (filesystem.go). -/
def sivaCapabilities : Nat := ReadCapability ||| WriteCapability ||| SeekCapability

/-- `normalizePath` (filesystem.go): `filepath.Join("/", path)` followed by
`ToSlash` and `removeLeadingSlash` — i.e. clean the path against the root,
collapsing `.`, `..` and empty components, then drop the leading slash.  On
component lists, `..` at the root is dropped (`Clean("/..") = "/"`). -/
def normalizePath (p : Path) : Path :=
  p.foldl
    (fun acc s =>
      if s = "" ∨ s = "." then acc
      else if s = ".." then acc.dropLast
      else acc ++ [s])
    []

/-- Modelled from the spec: the codec's index view of the append log —
"exact-name lookup against the most recent, non-deleted entry for that name
(tombstones mask earlier entries of the same name; later live entries
supersede earlier ones)".  `liveIndex log` keeps, in log order, the last
entry of each name, dropping those flagged deleted; this is what
`fs.r.Index()` exposes to `getIndex`. -/
def liveIndex : List Entry → List Entry
  | [] => []
  | e :: rest =>
    if rest.any (fun x => x.name = e.name) then liveIndex rest
    else if e.deleted then liveIndex rest
    else e :: liveIndex rest

/-- `index.Find(path)` on the live index: the unique live entry named `p`. -/
def sivaFind (log : List Entry) (p : Path) : Option Entry :=
  (liveIndex log).find? (fun e => e.name = p)

/-- Base name of a path (`filepath.Base`), used by the file-info constructors. -/
def baseName (p : Path) : String :=
  (p.getLast?).getD ""

/-- Modelled from the spec: `newFileInfo` (fileinfo.go is not among the
provided sources) — file metadata for an index entry: base name, size of the
stored bytes, mode, modification time, not a directory. -/
def newFileInfo (e : Entry) : FileInfo :=
  { name := baseName e.name, size := e.content.length, mode := e.mode
    modTime := e.modTime, isDir := false }

/-- Modelled from the spec: `newDirFileInfo` — synthesized directory metadata
for a virtual directory path with the given modification time. -/
def newDirFileInfo (d : Path) (t : Nat) : FileInfo :=
  { name := baseName d, size := 0, mode := 0, modTime := t, isDir := true }

/-- `listFiles(index, dir)` (filesystem.go): glob `dir/*` over the index —
entries whose name extends `dir` by exactly one component. -/
def listFiles (index : List Entry) (dir : Path) : List FileInfo :=
  ((index.filter (fun e =>
      dir.isPrefixOf e.name && e.name.length = dir.length + 1)).map newFileInfo)

/-- The body of the `listDirs` loop for one entry: `dirs[dir]` is updated when
absent or when the stored time `Before` the entry's (`!ok ||
oldDir.Before(e.ModTime)`), and a fresh key is appended to `dirOrder`.  The
association list carries both the map and the first-seen order. -/
def updateAcc : List (Path × Nat) → Path → Nat → List (Path × Nat)
  | [], d, t => [(d, t)]
  | (d', t') :: rest, d, t =>
    if d' = d then (d', if t' < t then t else t') :: rest
    else (d', t') :: updateAcc rest d t

/-- The `for _, e := range index` loop of `listDirs` (filesystem.go):
skip entries without the `dir/` prefix, skip entries not at least two levels
below (`len(targetParts) <= depth+1`), and group the rest by their first
`depth+1` components. -/
def dirsFold (dir : Path) (depth : Nat) :
    List Entry → List (Path × Nat) → List (Path × Nat)
  | [], acc => acc
  | e :: rest, acc =>
    if dir.isPrefixOf e.name then
      if e.name.length ≤ depth + 1 then dirsFold dir depth rest acc
      else dirsFold dir depth rest (updateAcc acc (e.name.take (depth + 1)) e.modTime)
    else dirsFold dir depth rest acc

/-- `listDirs(index, dir)` as the association list of
(child directory, modification time) pairs, in first-seen order.
`depth := strings.Count(addTrailingSlash(dir), "/")` is the number of
components of `dir`. -/
def listDirsPairs (index : List Entry) (dir : Path) : List (Path × Nat) :=
  dirsFold dir dir.length index []

/-- `listDirs(index, dir)` (filesystem.go): synthesized directory infos in
first-seen order. -/
def listDirs (index : List Entry) (dir : Path) : List FileInfo :=
  (listDirsPairs index dir).map (fun p => newDirFileInfo p.1 p.2)

/-- `getDir(index, dir)` (filesystem.go): entries whose name strictly extends
`dir` (`len(e.Name) > lenDir && e.Name[:lenDir] == dir` on the
slash-terminated form); if any exist, a synthesized directory info whose time
is the running maximum (`oldDir.Before(e.ModTime)` fold from the zero time). -/
def getDir (index : List Entry) (dir : Path) : Option FileInfo :=
  let entries := index.filter (fun e =>
    dir.isPrefixOf e.name && dir.length < e.name.length)
  if entries.isEmpty then none
  else some (newDirFileInfo dir
    (entries.foldl (fun old e => if old < e.modTime then e.modTime else old) 0))

/-- `SivaFSOptions` (filesystem.go). -/
structure SivaFSOptions where
  unsafePaths : Bool
  readOnly : Bool
  offset : Nat
deriving Repr, DecidableEq

/-- The mutable state of a `sivaFS` instance together with the backing
archive.  `sessionOpen` models `fs.r != nil` (the lazily opened session);
the combined reader/writer `fs.rw` is present exactly when the session is
open and the instance is not read-only.  `log` is the append-only archive
content (codec-level, modelled from the spec); `clock` is the logical time
returned by `time.Now()`, bumped at every header append. -/
structure FS where
  readOnly : Bool
  offset : Nat
  sessionOpen : Bool
  fileWriteModeOpen : Bool
  clock : Nat
  log : List Entry
deriving Repr, DecidableEq

/-- `fs.rw == nil`: no writer is bound (session not yet open, or opened
read-only). -/
def FS.rwNil (fs : FS) : Bool := !fs.sessionOpen || fs.readOnly

/-- `ensureOpen` (filesystem.go): lazily open the session; idempotent.  The
underlying open/create I/O is abstracted as always succeeding; in read-write
mode this binds the reader/writer, in read-only mode just the reader. -/
def FS.ensureOpen (fs : FS) : FS := { fs with sessionOpen := true }

/-- `getIndex` (filesystem.go): the codec's index of the current log
(`fs.r.Index()`, then `ToSafePaths` unless `UnsafePaths` — the identity on
well-formed names as used throughout this development). -/
def FS.getIndex (fs : FS) : List Entry := liveIndex fs.log

/-- A `*file` handle (file.go): name, the flags it was opened with, the
closed marker, the read side (`*io.SectionReader`: a content snapshot plus a
position) or the write side (`siva.Writer`), and whether a `closeNotify`
callback was installed (`newFile` installs one, `openFile` does not). -/
structure Handle where
  name : Path
  flag : Nat
  isClosed : Bool
  r : Option (List Nat × Nat)
  hasW : Bool
  hasCloseNotify : Bool
deriving Repr, DecidableEq

/-- `createFile` (filesystem.go): reject `O_RDWR`/`O_RDONLY` combinations
(the latter test is vacuous since `O_RDONLY = 0`), append a fresh header
(name, mode, `time.Now()`), mark the write session open (the deferred
`fs.fileWriteModeOpen = true`), and hand out a write-only handle built by
`newFile` with the flush-on-close callback. -/
def FS.createFile (fs : FS) (p : Path) (flag mode : Nat) :
    Except Err (Handle × FS) :=
  if flag &&& O_RDWR ≠ 0 ∨ flag &&& O_RDONLY ≠ 0 then .error .notSupported
  else
    .ok ({ name := p, flag := flag, isClosed := false, r := none,
           hasW := true, hasCloseNotify := true },
         { fs with
             log := fs.log ++
               [{ name := p, mode := mode, modTime := fs.clock, deleted := false,
                  content := [] }],
             clock := fs.clock + 1,
             fileWriteModeOpen := true })

/-- `openFile` (the read path, filesystem.go): reject write-direction flags,
look the name up in the index, and wrap the entry's stored bytes in a
seekable read-only handle (`fs.r.Get(e)` then the package-level `openFile`). -/
def FS.openRead (fs : FS) (p : Path) (flag : Nat) : Except Err (Handle × FS) :=
  if flag &&& O_RDWR ≠ 0 ∨ flag &&& O_WRONLY ≠ 0 then .error .notSupported
  else
    match sivaFind fs.log p with
    | none => .error .notExist
    | some e =>
      .ok ({ name := p, flag := flag, isClosed := false, r := some (e.content, 0),
             hasW := false, hasCloseNotify := false }, fs)

/-- `OpenFile` (filesystem.go): ensure the session, reject mutation flags on
a read-only session, normalize, reject create-without-truncate, enforce the
single-writer invariant for create requests, and dispatch to `createFile` or
the read path. -/
def FS.OpenFile (fs : FS) (path : Path) (flag mode : Nat) :
    Except Err (Handle × FS) :=
  if fs.ensureOpen.rwNil ∧ flag &&& (O_CREATE ||| O_TRUNC ||| O_WRONLY) ≠ 0 then
    .error .readOnlyFilesystem
  else if flag &&& O_CREATE ≠ 0 ∧ flag &&& O_TRUNC = 0 then .error .notSupported
  else if flag &&& O_CREATE ≠ 0 then
    if fs.ensureOpen.fileWriteModeOpen then .error .fileWriteModeAlreadyOpen
    else fs.ensureOpen.createFile (normalizePath path) flag mode
  else fs.ensureOpen.openRead (normalizePath path) flag

/-- `Create` (filesystem.go): `OpenFile` with `O_WRONLY|O_CREATE|O_TRUNC`
and mode `0666`. -/
def FS.Create (fs : FS) (path : Path) : Except Err (Handle × FS) :=
  fs.OpenFile path (O_WRONLY ||| O_CREATE ||| O_TRUNC) 438

/-- `Open` (filesystem.go): `OpenFile` with `O_RDONLY`. -/
def FS.Open (fs : FS) (path : Path) : Except Err (Handle × FS) :=
  fs.OpenFile path O_RDONLY 0

/-- `Stat` (filesystem.go): normalize, ensure the session, exact index
lookup first, then the synthesized-directory fallback, else `os.ErrNotExist`.
The session side effect of `ensureOpen` only touches `sessionOpen`, so the
result is returned without the state. -/
def FS.Stat (fs : FS) (path : Path) : Except Err FileInfo :=
  match (fs.ensureOpen.getIndex).find? (fun e => e.name = normalizePath path) with
  | some e => .ok (newFileInfo e)
  | none =>
    match getDir fs.ensureOpen.getIndex (normalizePath path) with
    | some st => .ok st
    | none => .error .notExist

/-- `ReadDir` (filesystem.go): `append(dirs, files...)` over the current
index. -/
def FS.ReadDir (fs : FS) (path : Path) : Except Err (List FileInfo) :=
  .ok (listDirs fs.ensureOpen.getIndex (normalizePath path) ++
    listFiles fs.ensureOpen.getIndex (normalizePath path))

/-- `Remove` (filesystem.go): on a live file entry append a tombstone header
(deleted flag, mode 0, `time.Now()`); on a synthesized directory fail
`ENOTEMPTY`; otherwise `os.ErrNotExist`.  Read-only sessions are rejected. -/
def FS.Remove (fs : FS) (path : Path) : Except Err FS :=
  if fs.ensureOpen.rwNil then .error .readOnlyFilesystem
  else
    match (fs.ensureOpen.getIndex).find? (fun e => e.name = normalizePath path) with
    | some _ =>
      .ok { fs.ensureOpen with
              log := fs.log ++
                [{ name := normalizePath path, mode := 0, modTime := fs.clock,
                   deleted := true, content := [] }],
              clock := fs.clock + 1 }
    | none =>
      match getDir fs.ensureOpen.getIndex (normalizePath path) with
      | some _ => .error (.notEmpty (normalizePath path))
      | none => .error .notExist

/-- `Rename` (filesystem.go): always `billy.ErrNotSupported`. -/
def FS.Rename (_fs : FS) (_from _to : Path) : Except Err Unit :=
  .error .notSupported

/-- `Sync` = `ensureClosed` (filesystem.go): close the writer (flushing the
codec index) and release the session; idempotent on a closed session.  Note
that `fileWriteModeOpen` is not touched. -/
def FS.Sync (fs : FS) : Except Err FS :=
  if !fs.sessionOpen then .ok fs
  else .ok { fs with sessionOpen := false }

/-- `sivaFS.Capabilities` (filesystem.go): the constant `sivaCapabilities`,
independent of the options the instance was built with. -/
def FS.Capabilities (_fs : FS) : Nat := sivaCapabilities

/-- `NewWithOptions` (filesystem.go): a lazily-opened instance over the
backing file's current archive content. -/
def NewWithOptions (initialLog : List Entry) (o : SivaFSOptions) : FS :=
  { readOnly := o.readOnly, offset := o.offset, sessionOpen := false,
    fileWriteModeOpen := false, clock := 0, log := initialLog }

/-- The composed filesystems returned by `NewFilesystemWithOptions`: the
`temp` overlay wrapper or the `readOnly` wrapper around the base instance. -/
inductive FSView where
  | tempOverlay (fs : FS)
  | readOnlyView (fs : FS)
deriving Repr, DecidableEq

/-- `temp.Capabilities` / `readOnly.Capabilities` (filesystem.go): the
overlay advertises `sivaCapabilities` unchanged; the read-only wrapper strips
the write capability (`sivaCapabilities & ^billy.WriteCapability`). -/
def FSView.Capabilities : FSView → Nat
  | .tempOverlay _ => sivaCapabilities
  | .readOnlyView _ => sivaCapabilities &&& capComplement WriteCapability

/-- `NewFilesystemWithOptions` (filesystem.go): reject a non-zero offset in
write mode before anything else, then wrap the base instance in the
read-only or temp-overlay composition. -/
def NewFilesystemWithOptions (initialLog : List Entry) (o : SivaFSOptions) :
    Except Err FSView :=
  if ¬o.readOnly ∧ o.offset ≠ 0 then .error .offsetReadWrite
  else
    let root := NewWithOptions initialLog o
    if o.readOnly then .ok (.readOnlyView root)
    else .ok (.tempOverlay root)

/-- `file.Read` (file.go): closed and write-only checks, then a
`SectionReader` read of up to `n` bytes from the current position
(`io.EOF` when positioned at or past the end). -/
def fileRead (h : Handle) (n : Nat) : Except Err (List Nat × Handle) :=
  if h.isClosed then .error .closed
  else
    match h.r with
    | none => .error .writeOnlyFile
    | some (c, pos) =>
      if c.length ≤ pos then .error .eof
      else
        let bytes := (c.drop pos).take n
        .ok (bytes, { h with r := some (c, pos + bytes.length) })

/-- `file.ReadAt` (file.go): closed and write-only checks, then
`SectionReader.ReadAt` — `io.EOF` for an offset outside the section, and a
short read (fewer than `n` bytes available) also reports `io.EOF` (the
partial bytes accompanying Go's `(n, io.EOF)` return are collapsed into the
error). -/
def fileReadAt (h : Handle) (n : Nat) (off : Int) : Except Err (List Nat) :=
  if h.isClosed then .error .closed
  else
    match h.r with
    | none => .error .writeOnlyFile
    | some (c, _) =>
      if off < 0 ∨ (c.length : Int) ≤ off then .error .eof
      else
        let bytes := (c.drop off.toNat).take n
        if bytes.length < n then .error .eof else .ok bytes

/-- `file.Seek` (file.go): closed check, the non-seekable error on a handle
with no read side, then `SectionReader.Seek` semantics. -/
def fileSeek (h : Handle) (offset : Int) (whence : Nat) :
    Except Err (Int × Handle) :=
  if h.isClosed then .error .closed
  else
    match h.r with
    | none => .error .nonSeekable
    | some (c, pos) =>
      let newPos : Int :=
        if whence = 0 then offset
        else if whence = 1 then (pos : Int) + offset
        else (c.length : Int) + offset
      if whence ≥ 3 then .error .invalidWhence
      else if newPos < 0 then .error .negativePosition
      else .ok (newPos, { h with r := some (c, newPos.toNat) })

/-- `file.Write` (file.go): closed and read-only checks, then
`siva.Writer.Write`, which appends the bytes to the entry opened by the most
recent header (modelled from the spec's codec contract; a writer released by
`Sync` rejects further writes). -/
def fileWrite (fs : FS) (h : Handle) (bs : List Nat) :
    Except Err (Nat × FS) :=
  if h.isClosed then .error .closed
  else if !h.hasW then .error .readOnlyFile
  else if fs.rwNil then .error .writerClosed
  else
    let log' :=
      match fs.log.getLast? with
      | none => fs.log
      | some e => fs.log.dropLast ++ [{ e with content := e.content ++ bs }]
    .ok (bs.length, { fs with log := log' })

/-- `file.Close` (file.go) combined with the `closeFunc` installed by
`createFile` (filesystem.go): already-closed check, mark closed, then — for
handles with a close callback — return nil immediately when `fs.rw == nil`,
otherwise clear the write-session flag when the handle's flags requested
write mode, and flush. -/
def closeFile (fs : FS) (h : Handle) : Except Err (Handle × FS) :=
  if h.isClosed then .error .closed
  else
    let h := { h with isClosed := true }
    if !h.hasCloseNotify then .ok (h, fs)
    else if fs.rwNil then .ok (h, fs)
    else if h.flag &&& O_WRONLY ≠ 0 ∨ h.flag &&& O_RDWR ≠ 0 then
      .ok (h, { fs with fileWriteModeOpen := false })
    else .ok (h, fs)

/-- A close whose error result the caller discards (`f.Close()` statements in
`file.Truncate`); state is unchanged when the close fails. -/
def closeIgnore (fs : FS) (h : Handle) : Handle × FS :=
  match closeFile fs h with
  | .ok (h', fs') => (h', fs')
  | .error _ => (h, fs)

/-- The buffer produced by `buffer := make([]byte, size)` followed by
`tmpF.Read(buffer)` in `file.Truncate`: up to `size` bytes of the prior
content, the rest of the buffer remaining zero. -/
def readIntoBuffer (content : List Nat) (size : Nat) : List Nat :=
  content.take size ++ List.replicate (size - min size content.length) 0

/-- `file.Truncate` (file.go): close the handle (result discarded), reopen
the entry and read up to `size` bytes (the read's error check in the source
is `if err != err`, which never fires, so read failures are ignored and a
missing read side leaves the buffer zeroed), recreate the entry, write the
preserved buffer, close, reopen with the original flags and adopt the fresh
handle's state.  Errors abort mid-sequence, returning the state reached so
far. -/
def fileTruncate (fs : FS) (f : Handle) (size : Nat) :
    Except Err Handle × FS :=
  let (f, fs) := closeIgnore fs f
  match fs.Open f.name with
  | .error e => (.error e, fs)
  | .ok (tmpF, fs) =>
    let buffer :=
      match tmpF.r with
      | some (c, _) => readIntoBuffer c size
      | none => List.replicate size 0
    let (_, fs) := closeIgnore fs tmpF
    match fs.Create f.name with
    | .error e => (.error e, fs)
    | .ok (tmpF, fs) =>
      match fileWrite fs tmpF buffer with
      | .error e =>
        let (_, fs) := closeIgnore fs tmpF
        (.error e, fs)
      | .ok (_, fs) =>
        let (_, fs) := closeIgnore fs tmpF
        match fs.OpenFile f.name f.flag 438 with
        | .error e => (.error e, fs)
        | .ok (nf, fs) =>
          (.ok { nf with name := f.name }, fs)

/-- A fresh read-write filesystem over an empty backing file. -/
def fs0 : FS :=
  { readOnly := false, offset := 0, sessionOpen := false,
    fileWriteModeOpen := false, clock := 0, log := [] }

/-- A write-only handle as produced by `createFile`. -/
def hWriteOnly : Handle :=
  { name := ["a"], flag := 577, isClosed := false, r := none,
    hasW := true, hasCloseNotify := true }

/-- A read-only handle as produced by the read path of `OpenFile`. -/
def hReadOnly : Handle :=
  { name := ["a"], flag := 0, isClosed := false, r := some ([7], 0),
    hasW := false, hasCloseNotify := false }

/-- A closed read handle. -/
def hClosed : Handle :=
  { name := ["a"], flag := 0, isClosed := true, r := some ([7], 0),
    hasW := false, hasCloseNotify := false }

/-- The state after creating `"a"` on a fresh instance: one pending entry,
write session marked open. -/
def fsAfterCreateA : FS :=
  { readOnly := false, offset := 0, sessionOpen := true,
    fileWriteModeOpen := true, clock := 1,
    log := [{ name := ["a"], mode := 438, modTime := 0, deleted := false,
              content := [] }] }

/-- The write handle returned by that create. -/
def hCreateA : Handle :=
  { name := ["a"], flag := 577, isClosed := false, r := none,
    hasW := true, hasCloseNotify := true }

/-- The state after `OpenFile("c", O_CREATE|O_TRUNC, 0666)` (create without
the write bit) on a fresh instance. -/
def fsAfterCreateC : FS :=
  { readOnly := false, offset := 0, sessionOpen := true,
    fileWriteModeOpen := true, clock := 1,
    log := [{ name := ["c"], mode := 438, modTime := 0, deleted := false,
              content := [] }] }

/-- The handle returned by that create-without-write-bit open. -/
def hCreateC : Handle :=
  { name := ["c"], flag := 576, isClosed := false, r := none,
    hasW := true, hasCloseNotify := true }

/-- A filesystem holding a live file `"a"` that also has a live descendant
`"a/b"`. -/
def fsFileWithChild : FS :=
  { readOnly := false, offset := 0, sessionOpen := true,
    fileWriteModeOpen := false, clock := 3,
    log := [{ name := ["a"], mode := 438, modTime := 1, deleted := false,
              content := [7] },
            { name := ["a", "b"], mode := 438, modTime := 2, deleted := false,
              content := [] }] }

/-- `fsFileWithChild` after `Remove("a")`: the tombstone is appended. -/
def fsFileWithChildRemoved : FS :=
  { readOnly := false, offset := 0, sessionOpen := true,
    fileWriteModeOpen := false, clock := 4,
    log := [{ name := ["a"], mode := 438, modTime := 1, deleted := false,
              content := [7] },
            { name := ["a", "b"], mode := 438, modTime := 2, deleted := false,
              content := [] },
            { name := ["a"], mode := 0, modTime := 3, deleted := true,
              content := [] }] }

/-- A filesystem holding a single live file `"x"`. -/
def fsSingleFile : FS :=
  { readOnly := false, offset := 0, sessionOpen := true,
    fileWriteModeOpen := false, clock := 5,
    log := [{ name := ["x"], mode := 438, modTime := 1, deleted := false,
              content := [1, 2] }] }

/-- A filesystem whose only live entry is `"a/b"` (so `"a"` exists purely as
a synthesized directory). -/
def fsOnlyChild : FS :=
  { readOnly := false, offset := 0, sessionOpen := true,
    fileWriteModeOpen := false, clock := 3,
    log := [{ name := ["a", "b"], mode := 438, modTime := 2, deleted := false,
              content := [] }] }

/-- A filesystem holding one live five-byte file `"a"`. -/
def fsFiveBytes : FS :=
  { readOnly := false, offset := 0, sessionOpen := true,
    fileWriteModeOpen := false, clock := 7,
    log := [{ name := ["a"], mode := 438, modTime := 1, deleted := false,
              content := [1, 2, 3, 4, 5] }] }

/-- A read handle over that file. -/
def hReadFive : Handle :=
  { name := ["a"], flag := 0, isClosed := false,
    r := some ([1, 2, 3, 4, 5], 0), hasW := false, hasCloseNotify := false }

/-- The one-level child directory of `dir` implied by entry `e` in the
`listDirs` loop: defined when `e` has the `dir/` prefix and lies at least
two levels below (`len(targetParts) > depth+1`), in which case it is the
first `depth+1` components of `e`'s name. -/
def childDirOf (dir : Path) (depth : Nat) (e : Entry) : Option Path :=
  if dir.isPrefixOf e.name ∧ depth + 1 < e.name.length then
    some (e.name.take (depth + 1))
  else none

/-- The first occurrence of each element, in order of first appearance —
the order the `dirOrder` slice of `listDirs` records. -/
def dedupFirst : List Path → List Path
  | [] => []
  | d :: rest => d :: dedupFirst (rest.filter (fun x => x ≠ d))
termination_by l => l.length
decreasing_by exact Nat.lt_succ_of_le (List.length_filter_le _ _)

/-- The maximum modification time among the index entries strictly beneath
the directory path `d` (zero when there are none, matching the zero
`time.Time` start of the fold). -/
def maxModTimeUnder (index : List Entry) (d : Path) : Nat :=
  ((index.filter (fun e =>
      d.isPrefixOf e.name && decide (d.length < e.name.length))).map
    Entry.modTime).foldl max 0

/-- Lookup in the association list accumulated by the `listDirs` loop. -/
def assocLookup : List (Path × Nat) → Path → Option Nat
  | [], _ => none
  | (d', t') :: rest, d => if d' = d then some t' else assocLookup rest d

/-- The spec's `readdir` example: `a/x.txt` (modTime 5) and `a/sub/y.txt`
(modTime 9). -/
def fsSpecExample : FS :=
  { readOnly := false, offset := 0, sessionOpen := true,
    fileWriteModeOpen := false, clock := 10,
    log := [{ name := ["a", "x.txt"], mode := 438, modTime := 5,
              deleted := false, content := [1, 2] },
            { name := ["a", "sub", "y.txt"], mode := 438, modTime := 9,
              deleted := false, content := [] }] }

/-- A filesystem holding one live two-byte file `"a"`. -/
def fsTwoBytes : FS :=
  { readOnly := false, offset := 0, sessionOpen := true,
    fileWriteModeOpen := false, clock := 3,
    log := [{ name := ["a"], mode := 438, modTime := 1, deleted := false,
              content := [1, 2] }] }

/-- A read handle over that two-byte file. -/
def hReadTwo : Handle :=
  { name := ["a"], flag := 0, isClosed := false, r := some ([1, 2], 0),
    hasW := false, hasCloseNotify := false }

/-- A filesystem with an in-flight create on `"a"` (two bytes written so
far, write session open). -/
def fsCreateInFlight : FS :=
  { readOnly := false, offset := 0, sessionOpen := true,
    fileWriteModeOpen := true, clock := 1,
    log := [{ name := ["a"], mode := 438, modTime := 0, deleted := false,
              content := [9, 9] }] }

/-- The create-mode handle (`O_WRONLY|O_CREATE|O_TRUNC`) for that
in-flight entry. -/
def hCreateInFlight : Handle :=
  { name := ["a"], flag := 577, isClosed := false, r := none,
    hasW := true, hasCloseNotify := true }

/-! ### Helper lemmas about the live index -/

theorem liveIndex_sublist (l : List Entry) : (liveIndex l).Sublist l := by
  induction l with
  | nil => simp [liveIndex]
  | cons e rest ih =>
    simp only [liveIndex]
    split
    · exact ih.cons e
    · split
      · exact ih.cons e
      · exact ih.cons₂ e

theorem liveIndex_cons (e : Entry) (rest : List Entry) :
    liveIndex (e :: rest) =
      if rest.any (fun x => x.name = e.name) then liveIndex rest
      else if e.deleted then liveIndex rest else e :: liveIndex rest := rfl

theorem liveIndex_append_single (l : List Entry) (t : Entry) :
    liveIndex (l ++ [t]) =
      (liveIndex l).filter (fun e => e.name ≠ t.name) ++
        (if t.deleted then [] else [t]) := by
  induction l with
  | nil =>
    by_cases ht : t.deleted <;> simp [liveIndex, ht]
  | cons e rest ih =>
    rw [List.cons_append, liveIndex_cons, liveIndex_cons]
    have hany : ((rest ++ [t]).any (fun x => x.name = e.name)) =
        ((rest.any (fun x => x.name = e.name)) || decide (t.name = e.name)) := by
      simp [List.any_append]
    by_cases hmem : rest.any (fun x => x.name = e.name)
    · rw [if_pos, if_pos hmem, ih]
      rw [hany, hmem, Bool.true_or]
    · by_cases hname : t.name = e.name
      · rw [if_pos, if_neg hmem]
        · by_cases hdel : e.deleted
          · rw [if_pos hdel, ih]
          · rw [if_neg hdel, ih, List.filter_cons_of_neg]
            simp [hname]
        · rw [hany]
          simp [hname]
      · rw [if_neg, if_neg hmem]
        · by_cases hdel : e.deleted
          · rw [if_pos hdel, if_pos hdel, ih]
          · rw [if_neg hdel, if_neg hdel, ih, List.filter_cons_of_pos]
            · rw [List.cons_append]
            · exact decide_eq_true (fun h => hname h.symm)
        · rw [hany]
          simp [hmem, hname]

theorem liveIndex_append_deleted (l : List Entry) (t : Entry)
    (ht : t.deleted = true) :
    liveIndex (l ++ [t]) = (liveIndex l).filter (fun e => e.name ≠ t.name) := by
  rw [liveIndex_append_single, ht]
  simp

theorem liveIndex_append_live (l : List Entry) (t : Entry)
    (ht : t.deleted = false) :
    liveIndex (l ++ [t]) =
      (liveIndex l).filter (fun e => e.name ≠ t.name) ++ [t] := by
  rw [liveIndex_append_single, ht]
  simp

theorem find?_filter_ne_self (L : List Entry) (p : Path) :
    (L.filter (fun e => e.name ≠ p)).find? (fun e => e.name = p) = none := by
  rw [List.find?_eq_none]
  intro x hx
  have := (List.mem_filter.mp hx).2
  simpa using this

theorem sivaFind_append_deleted (l : List Entry) (t : Entry)
    (ht : t.deleted = true) :
    sivaFind (l ++ [t]) t.name = none := by
  rw [sivaFind, liveIndex_append_deleted l t ht]
  exact find?_filter_ne_self _ _

theorem sivaFind_append_live (l : List Entry) (t : Entry)
    (ht : t.deleted = false) :
    sivaFind (l ++ [t]) t.name = some t := by
  rw [sivaFind, liveIndex_append_live l t ht, List.find?_append,
    find?_filter_ne_self _ t.name]
  simp [List.find?]

theorem getDir_filter_ne (L : List Entry) (p : Path) :
    getDir (L.filter (fun e => e.name ≠ p)) p = getDir L p := by
  have key : (L.filter (fun e => e.name ≠ p)).filter
        (fun e => p.isPrefixOf e.name && decide (p.length < e.name.length)) =
      L.filter (fun e => p.isPrefixOf e.name && decide (p.length < e.name.length)) := by
    rw [List.filter_filter]
    apply List.filter_congr
    intro e _
    by_cases h1 : (p.isPrefixOf e.name && decide (p.length < e.name.length)) = true
    · have hlt : p.length < e.name.length := by
        have h2 := ((Bool.and_eq_true _ _).mp h1).2
        simpa using h2
      have hne : e.name ≠ p := by
        intro he
        rw [he] at hlt
        exact lt_irrefl _ hlt
      simp [h1, hne]
    · simp [h1]
  simp only [getDir]
  rw [key]

theorem getDir_append_deleted_self (l : List Entry) (t : Entry)
    (ht : t.deleted = true) :
    getDir (liveIndex (l ++ [t])) t.name = getDir (liveIndex l) t.name := by
  rw [liveIndex_append_deleted l t ht, getDir_filter_ne]

/-! ### Execution lemmas for the filesystem state machine -/

theorem ensureOpen_rwNil (fs : FS) : fs.ensureOpen.rwNil = fs.readOnly := by
  simp [FS.ensureOpen, FS.rwNil]

theorem ensureOpen_fileWriteModeOpen (fs : FS) :
    fs.ensureOpen.fileWriteModeOpen = fs.fileWriteModeOpen := rfl

theorem and_create_of_and_union_eq_zero (flag : Nat)
    (h0 : flag &&& (O_CREATE ||| O_TRUNC ||| O_WRONLY) = 0) :
    flag &&& O_CREATE = 0 := by
  have hmask : (O_CREATE ||| O_TRUNC ||| O_WRONLY) &&& O_CREATE = O_CREATE := by
    decide
  have hstep : flag &&& O_CREATE =
      flag &&& (O_CREATE ||| O_TRUNC ||| O_WRONLY) &&& O_CREATE := by
    conv_lhs => rw [← hmask]
    rw [Nat.and_assoc]
  rw [hstep, h0, Nat.zero_and]

/-- Inversion of a successful create-mode `OpenFile`: the session must be
read-write with no write handle open, the flags carried truncate and no
read-write bit, a fresh header was appended and the write-session flag set,
and the result is the write-only handle built by `newFile`. -/
theorem OpenFile_create_ok_inv (fs : FS) (p : Path) (flag mode : Nat)
    (h : Handle) (fs' : FS)
    (hflag : flag &&& O_CREATE ≠ 0)
    (hok : fs.OpenFile p flag mode = .ok (h, fs')) :
    fs.readOnly = false ∧ fs.fileWriteModeOpen = false ∧
    flag &&& O_TRUNC ≠ 0 ∧ flag &&& O_RDWR = 0 ∧
    h = { name := normalizePath p, flag := flag, isClosed := false, r := none,
          hasW := true, hasCloseNotify := true } ∧
    fs' = { fs with sessionOpen := true,
                    log := fs.log ++
                      [{ name := normalizePath p, mode := mode,
                         modTime := fs.clock, deleted := false, content := [] }],
                    clock := fs.clock + 1,
                    fileWriteModeOpen := true } := by
  have h577 : flag &&& (O_CREATE ||| O_TRUNC ||| O_WRONLY) ≠ 0 :=
    fun h0 => hflag (and_create_of_and_union_eq_zero flag h0)
  by_cases hro : fs.readOnly = true
  · exfalso
    unfold FS.OpenFile at hok
    rw [if_pos ⟨by rw [ensureOpen_rwNil, hro], h577⟩] at hok
    exact Except.noConfusion hok
  have hro' : fs.readOnly = false := by
    cases hval : fs.readOnly
    · rfl
    · exact absurd hval hro
  unfold FS.OpenFile at hok
  rw [if_neg (by rw [ensureOpen_rwNil, hro']; simp)] at hok
  by_cases htr : flag &&& O_TRUNC = 0
  · exfalso
    rw [if_pos ⟨hflag, htr⟩] at hok
    exact Except.noConfusion hok
  rw [if_neg (fun hc => htr hc.2), if_pos hflag] at hok
  by_cases hfw : fs.ensureOpen.fileWriteModeOpen = true
  · exfalso
    rw [if_pos hfw] at hok
    exact Except.noConfusion hok
  have hfw' : fs.fileWriteModeOpen = false := by
    rw [← ensureOpen_fileWriteModeOpen]
    cases hval : fs.ensureOpen.fileWriteModeOpen
    · rfl
    · exact absurd hval hfw
  rw [if_neg hfw] at hok
  unfold FS.createFile at hok
  by_cases hrw : flag &&& O_RDWR = 0
  · rw [if_neg (by simp [O_RDONLY, hrw])] at hok
    rw [Except.ok.injEq, Prod.mk.injEq] at hok
    refine ⟨hro', hfw', htr, hrw, hok.1.symm, ?_⟩
    rw [← hok.2]
    simp [FS.ensureOpen]
  · exfalso
    rw [if_pos (Or.inl hrw)] at hok
    exact Except.noConfusion hok

/-! ### Claims -/

/-- C4: on a read-write filesystem with no write handle pending, `OpenFile`
fails with `billy.ErrNotSupported` for any flags containing the read-write
bit, and for any flags requesting create without truncate, regardless of the
path or of what the archive contains; `Rename` fails with
`billy.ErrNotSupported` for every pair of paths. -/
theorem C4_unsupported_flag_combinations (fs : FS) (path : Path)
    (flag mode : Nat)
    (hro : fs.readOnly = false) (hw : fs.fileWriteModeOpen = false) :
    (flag &&& O_RDWR ≠ 0 → fs.OpenFile path flag mode = .error .notSupported) ∧
    (flag &&& O_CREATE ≠ 0 → flag &&& O_TRUNC = 0 →
      fs.OpenFile path flag mode = .error .notSupported) ∧
    (∀ q r, fs.Rename q r = .error .notSupported) := by
  refine ⟨?_, ?_, fun _ _ => rfl⟩
  · intro hrdwr
    unfold FS.OpenFile
    rw [if_neg (by rw [ensureOpen_rwNil, hro]; simp)]
    by_cases hct : flag &&& O_CREATE ≠ 0 ∧ flag &&& O_TRUNC = 0
    · rw [if_pos hct]
    · rw [if_neg hct]
      by_cases hcr : flag &&& O_CREATE ≠ 0
      · rw [if_pos hcr,
            if_neg (by rw [ensureOpen_fileWriteModeOpen, hw]; simp)]
        unfold FS.createFile
        rw [if_pos (Or.inl hrdwr)]
      · rw [if_neg hcr]
        unfold FS.openRead
        rw [if_pos (Or.inl hrdwr)]
  · intro hcr htr
    unfold FS.OpenFile
    rw [if_neg (by rw [ensureOpen_rwNil, hro]; simp), if_pos ⟨hcr, htr⟩]

theorem C4_witness :
    FS.OpenFile fs0 ["a"] O_RDWR 438 = .error .notSupported ∧
    FS.OpenFile fs0 ["a"] O_CREATE 438 = .error .notSupported ∧
    FS.Rename fs0 ["a"] ["b"] = .error .notSupported :=
  ⟨(C4_unsupported_flag_combinations fs0 ["a"] O_RDWR 438 rfl rfl).1 (by decide),
   (C4_unsupported_flag_combinations fs0 ["a"] O_CREATE 438 rfl rfl).2.1
     (by decide) (by decide),
   (C4_unsupported_flag_combinations fs0 ["a"] O_CREATE 438 rfl rfl).2.2
     ["a"] ["b"]⟩

/-- C6: constructing the composed filesystem in read-write mode with a
non-zero snapshot offset fails with `ErrOffsetReadWrite` irrespective of the
archive content (the check precedes any archive I/O), while a read-only
construction accepts any offset and yields the read-only wrapper. -/
theorem C6_offset_requires_read_only (log : List Entry) (o : SivaFSOptions) :
    (o.readOnly = false → o.offset ≠ 0 →
      NewFilesystemWithOptions log o = .error .offsetReadWrite) ∧
    (o.readOnly = true →
      NewFilesystemWithOptions log o =
        .ok (.readOnlyView (NewWithOptions log o))) := by
  constructor
  · intro h1 h2
    unfold NewFilesystemWithOptions
    rw [if_pos ⟨by simp [h1], h2⟩]
  · intro h1
    unfold NewFilesystemWithOptions
    rw [if_neg (by simp [h1]), if_pos (by simp [h1])]

theorem C6_witness :
    NewFilesystemWithOptions []
        { unsafePaths := false, readOnly := false, offset := 5 } =
      .error .offsetReadWrite ∧
    NewFilesystemWithOptions []
        { unsafePaths := false, readOnly := true, offset := 7 } =
      .ok (.readOnlyView (NewWithOptions []
        { unsafePaths := false, readOnly := true, offset := 7 })) :=
  ⟨(C6_offset_requires_read_only []
      { unsafePaths := false, readOnly := false, offset := 5 }).1 rfl (by decide),
   (C6_offset_requires_read_only []
      { unsafePaths := false, readOnly := true, offset := 7 }).2 rfl⟩

/-- C10: the base siva filesystem — however its options were chosen,
including read-only — and the temp-overlay wrapper both advertise exactly
read, write and seek capabilities; the read-only wrapper advertises the same
set with the write capability stripped. -/
theorem C10_capability_advertisement (log : List Entry) (o : SivaFSOptions)
    (fs : FS) :
    (NewWithOptions log o).Capabilities =
      ReadCapability ||| WriteCapability ||| SeekCapability ∧
    fs.Capabilities = ReadCapability ||| WriteCapability ||| SeekCapability ∧
    FSView.Capabilities (.tempOverlay fs) =
      ReadCapability ||| WriteCapability ||| SeekCapability ∧
    FSView.Capabilities (.readOnlyView fs) =
      ReadCapability ||| SeekCapability := by
  refine ⟨rfl, rfl, rfl, ?_⟩
  show sivaCapabilities &&& capComplement WriteCapability =
    ReadCapability ||| SeekCapability
  decide

/-- C7: wrong-direction operations on a handle fail with the write-only,
non-seekable and read-only errors, and every operation on a closed handle —
including a second close — fails with `os.ErrClosed`. -/
theorem C7_handle_errors (fs : FS) (h : Handle) (n : Nat)
    (off offset : Int) (whence : Nat) (bs : List Nat) :
    (h.isClosed = false →
      (h.r = none →
        fileRead h n = .error .writeOnlyFile ∧
        fileReadAt h n off = .error .writeOnlyFile ∧
        fileSeek h offset whence = .error .nonSeekable) ∧
      (h.hasW = false → fileWrite fs h bs = .error .readOnlyFile)) ∧
    (h.isClosed = true →
      fileRead h n = .error .closed ∧
      fileReadAt h n off = .error .closed ∧
      fileSeek h offset whence = .error .closed ∧
      fileWrite fs h bs = .error .closed ∧
      closeFile fs h = .error .closed) := by
  constructor
  · intro hc
    constructor
    · intro hr
      refine ⟨?_, ?_, ?_⟩ <;> simp [fileRead, fileReadAt, fileSeek, hc, hr]
    · intro hw
      simp [fileWrite, hc, hw]
  · intro hc
    refine ⟨?_, ?_, ?_, ?_, ?_⟩ <;>
      simp [fileRead, fileReadAt, fileSeek, fileWrite, closeFile, hc]

theorem C7_witness :
    fileRead hWriteOnly 1 = .error .writeOnlyFile ∧
    fileSeek hWriteOnly 0 0 = .error .nonSeekable ∧
    fileWrite fs0 hReadOnly [1] = .error .readOnlyFile ∧
    fileRead hClosed 1 = .error .closed ∧
    closeFile fs0 hClosed = .error .closed :=
  ⟨((C7_handle_errors fs0 hWriteOnly 1 0 0 0 [1]).1 rfl).1 rfl |>.1,
   ((C7_handle_errors fs0 hWriteOnly 1 0 0 0 [1]).1 rfl).1 rfl |>.2.2,
   ((C7_handle_errors fs0 hReadOnly 1 0 0 0 [1]).1 rfl).2 rfl,
   ((C7_handle_errors fs0 hClosed 1 0 0 0 [1]).2 rfl).1,
   ((C7_handle_errors fs0 hClosed 1 0 0 0 [1]).2 rfl).2.2.2.2⟩

/-- C9: `Sync` while a create-mode handle is open releases the writer but
not the write-session flag; the handle's later close hits the
`fs.rw == nil` early return of its `closeFunc`, succeeding without clearing
the flag, so every subsequent valid create-mode open on the instance fails
with `ErrFileWriteModeAlreadyOpen` although no write handle is open. -/
theorem C9_sync_then_close_wedges_creates (fs : FS) (p : Path)
    (flag mode : Nat) (h : Handle) (fs1 fs2 : FS)
    (hflag : flag &&& O_CREATE ≠ 0)
    (hopen : fs.OpenFile p flag mode = .ok (h, fs1))
    (hsync : fs1.Sync = .ok fs2) :
    closeFile fs2 h =
      .ok ({ h with isClosed := true }, fs2) ∧
    fs2.fileWriteModeOpen = true ∧
    (∀ q flag' mode', flag' &&& O_CREATE ≠ 0 → flag' &&& O_TRUNC ≠ 0 →
      fs2.OpenFile q flag' mode' = .error .fileWriteModeAlreadyOpen) := by
  obtain ⟨hro, -, -, -, hh, hfs1⟩ :=
    OpenFile_create_ok_inv fs p flag mode h fs1 hflag hopen
  have hfs2 : fs2 = { fs1 with sessionOpen := false } := by
    unfold FS.Sync at hsync
    rw [if_neg (by rw [hfs1]; simp)] at hsync
    rw [Except.ok.injEq] at hsync
    exact hsync.symm
  have hsess : fs2.sessionOpen = false := by rw [hfs2]
  have hfwmo : fs2.fileWriteModeOpen = true := by rw [hfs2, hfs1]
  have hro2 : fs2.readOnly = false := by rw [hfs2, hfs1]; exact hro
  refine ⟨?_, hfwmo, ?_⟩
  · unfold closeFile
    rw [if_neg (by rw [hh]; simp)]
    have hnotify : ({ h with isClosed := true } : Handle).hasCloseNotify = true := by
      rw [hh]
    rw [if_neg (by rw [hnotify]; simp), if_pos (by simp [FS.rwNil, hsess])]
  · intro q flag' mode' hc' ht'
    unfold FS.OpenFile
    rw [if_neg (by rw [ensureOpen_rwNil, hro2]; simp),
        if_neg (fun hx => ht' hx.2), if_pos hc',
        if_pos (by rw [ensureOpen_fileWriteModeOpen]; exact hfwmo)]

theorem C9_witness :
    (fs0.fileWriteModeOpen = false) ∧
    FS.OpenFile fs0 ["a"] 577 438 =
      .ok ({ name := ["a"], flag := 577, isClosed := false, r := none,
             hasW := true, hasCloseNotify := true },
           { readOnly := false, offset := 0, sessionOpen := true,
             fileWriteModeOpen := true, clock := 1,
             log := [{ name := ["a"], mode := 438, modTime := 0,
                       deleted := false, content := [] }] }) ∧
    FS.Sync { readOnly := false, offset := 0, sessionOpen := true,
              fileWriteModeOpen := true, clock := 1,
              log := [{ name := ["a"], mode := 438, modTime := 0,
                        deleted := false, content := [] }] } =
      .ok { readOnly := false, offset := 0, sessionOpen := false,
            fileWriteModeOpen := true, clock := 1,
            log := [{ name := ["a"], mode := 438, modTime := 0,
                      deleted := false, content := [] }] } ∧
    FS.OpenFile { readOnly := false, offset := 0, sessionOpen := false,
                  fileWriteModeOpen := true, clock := 1,
                  log := [{ name := ["a"], mode := 438, modTime := 0,
                            deleted := false, content := [] }] }
        ["b"] 577 438 = .error .fileWriteModeAlreadyOpen := by
  refine ⟨rfl, by rfl, by rfl, ?_⟩
  exact (C9_sync_then_close_wedges_creates fs0 ["a"] 577 438
    { name := ["a"], flag := 577, isClosed := false, r := none,
      hasW := true, hasCloseNotify := true }
    { readOnly := false, offset := 0, sessionOpen := true,
      fileWriteModeOpen := true, clock := 1,
      log := [{ name := ["a"], mode := 438, modTime := 0,
                deleted := false, content := [] }] }
    { readOnly := false, offset := 0, sessionOpen := false,
      fileWriteModeOpen := true, clock := 1,
      log := [{ name := ["a"], mode := 438, modTime := 0,
                deleted := false, content := [] }] }
    (by decide) (by rfl) (by rfl)).2.2 ["b"] 577 438
    (by decide) (by decide)

/-- C1 counterexample: with the create handle on `"a"` open, a further
`OpenFile` whose flags request create (without truncate) fails with
`billy.ErrNotSupported`, not `ErrFileWriteModeAlreadyOpen`; and a handle
created with `O_CREATE|O_TRUNC` but without `O_WRONLY` never clears the
write-session flag on close, so creates keep failing after it is closed. -/
theorem C1_counterexample :
    FS.OpenFile fs0 ["a"] (O_WRONLY ||| O_CREATE ||| O_TRUNC) 438 =
      .ok (hCreateA, fsAfterCreateA) ∧
    FS.OpenFile fsAfterCreateA ["b"] O_CREATE 438 = .error .notSupported ∧
    Err.notSupported ≠ Err.fileWriteModeAlreadyOpen ∧
    FS.OpenFile fs0 ["c"] (O_CREATE ||| O_TRUNC) 438 =
      .ok (hCreateC, fsAfterCreateC) ∧
    closeFile fsAfterCreateC hCreateC =
      .ok ({ hCreateC with isClosed := true }, fsAfterCreateC) ∧
    fsAfterCreateC.fileWriteModeOpen = true ∧
    FS.OpenFile fsAfterCreateC ["d"] (O_WRONLY ||| O_CREATE ||| O_TRUNC) 438 =
      .error .fileWriteModeAlreadyOpen :=
  ⟨rfl, rfl, by decide, rfl, rfl, rfl, rfl⟩

/-- C1 (amended): while a create-mode handle is open, every further
`OpenFile` whose flags request create *and truncate* fails with
`ErrFileWriteModeAlreadyOpen` (create without truncate is rejected earlier
as unsupported); and when the open handle's flags included `O_WRONLY`,
closing it clears the write-session flag, after which a valid create-mode
open succeeds again. -/
theorem C1_single_writer_amended (fs : FS) (p : Path) (flag mode : Nat)
    (h : Handle) (fs1 : FS)
    (hflag : flag &&& O_CREATE ≠ 0)
    (hok : fs.OpenFile p flag mode = .ok (h, fs1)) :
    (∀ q flag' mode', flag' &&& O_CREATE ≠ 0 → flag' &&& O_TRUNC ≠ 0 →
      fs1.OpenFile q flag' mode' = .error .fileWriteModeAlreadyOpen) ∧
    (flag &&& O_WRONLY ≠ 0 →
      ∀ h' fs2, closeFile fs1 h = .ok (h', fs2) →
        fs2.fileWriteModeOpen = false ∧
        (∀ q flag' mode', flag' &&& O_CREATE ≠ 0 → flag' &&& O_TRUNC ≠ 0 →
          flag' &&& O_RDWR = 0 →
          ∃ h2 fs3, fs2.OpenFile q flag' mode' = .ok (h2, fs3))) := by
  obtain ⟨hro, -, -, -, hh, hfs1⟩ :=
    OpenFile_create_ok_inv fs p flag mode h fs1 hflag hok
  have hsess1 : fs1.sessionOpen = true := by rw [hfs1]
  have hro1 : fs1.readOnly = false := by rw [hfs1]; exact hro
  have hfw1 : fs1.fileWriteModeOpen = true := by rw [hfs1]
  constructor
  · intro q flag' mode' hc' ht'
    unfold FS.OpenFile
    rw [if_neg (by rw [ensureOpen_rwNil, hro1]; simp),
        if_neg (fun hx => ht' hx.2), if_pos hc',
        if_pos (by rw [ensureOpen_fileWriteModeOpen]; exact hfw1)]
  · intro hwr h' fs2 hclose
    have hcl : closeFile fs1 h =
        .ok ({ h with isClosed := true }, { fs1 with fileWriteModeOpen := false }) := by
      rw [hh]
      unfold closeFile
      rw [if_neg (by simp),
          if_neg (by simp),
          if_neg (by simp [FS.rwNil, hsess1, hro1]),
          if_pos (Or.inl (by simpa using hwr))]
    rw [hcl, Except.ok.injEq, Prod.mk.injEq] at hclose
    have hfs2 : fs2 = { fs1 with fileWriteModeOpen := false } := hclose.2.symm
    constructor
    · rw [hfs2]
    · intro q flag' mode' hc' ht' hrw'
      have hopen2 : fs2.OpenFile q flag' mode' =
          fs2.ensureOpen.createFile (normalizePath q) flag' mode' := by
        unfold FS.OpenFile
        rw [if_neg (by rw [ensureOpen_rwNil, hfs2]; simp [hro1]),
            if_neg (fun hx => ht' hx.2), if_pos hc',
            if_neg (by rw [ensureOpen_fileWriteModeOpen, hfs2]; simp)]
      rw [hopen2]
      unfold FS.createFile
      rw [if_neg (by simp [O_RDONLY, hrw'])]
      exact ⟨_, _, rfl⟩

theorem C1_witness :
    FS.OpenFile fsAfterCreateA ["b"] 577 438 =
      .error .fileWriteModeAlreadyOpen ∧
    ({ fsAfterCreateA with fileWriteModeOpen := false } : FS).fileWriteModeOpen
        = false ∧
    (∃ h2 fs3,
      FS.OpenFile { fsAfterCreateA with fileWriteModeOpen := false } ["b"] 577 438
        = .ok (h2, fs3)) := by
  have happ := C1_single_writer_amended fs0 ["a"] 577 438 hCreateA fsAfterCreateA
    (by decide) (by rfl)
  have hcl := happ.2 (by decide) { hCreateA with isClosed := true }
    { fsAfterCreateA with fileWriteModeOpen := false } (by rfl)
  exact ⟨happ.1 ["b"] 577 438 (by decide) (by decide), hcl.1,
    hcl.2 ["b"] 577 438 (by decide) (by decide) (by decide)⟩

/-- C2 counterexample: `"a"` is a live file entry, `Remove("a")` succeeds by
appending a tombstone, yet a subsequent `Stat("a")` does not fail not-found —
it reports the synthesized directory inferred from the live descendant
`"a/b"`. -/
theorem C2_counterexample :
    FS.Remove fsFileWithChild ["a"] = .ok fsFileWithChildRemoved ∧
    FS.Stat fsFileWithChildRemoved ["a"] =
      .ok { name := "a", size := 0, mode := 0, modTime := 2, isDir := true } ∧
    FS.Stat fsFileWithChildRemoved ["a"] ≠ .error .notExist :=
  ⟨rfl, rfl, by decide⟩

/-- C2 (amended): `Remove` is the three-way case split of the claim: a live
file entry gets a tombstone header (deleted flag, mode `0`, current clock),
after which `find` yields none and — provided the path has no live
descendants — `Stat` fails not-found, while the earlier entry physically
remains in the grown log; a synthesized directory with live descendants
fails `ENOTEMPTY`; otherwise `os.ErrNotExist`. -/
theorem C2_remove_cases_amended (fs : FS) (path : Path)
    (hro : fs.readOnly = false) :
    (∀ e, (fs.getIndex).find? (fun x => x.name = normalizePath path) = some e →
      FS.Remove fs path =
        .ok { fs.ensureOpen with
                log := fs.log ++
                  [{ name := normalizePath path, mode := 0, modTime := fs.clock,
                     deleted := true, content := [] }],
                clock := fs.clock + 1 } ∧
      sivaFind
        (fs.log ++
          [{ name := normalizePath path, mode := 0, modTime := fs.clock,
             deleted := true, content := [] }]) (normalizePath path) = none ∧
      e ∈ fs.log ∧
      fs.log <+:
        (fs.log ++
          [{ name := normalizePath path, mode := 0, modTime := fs.clock,
             deleted := true, content := [] }]) ∧
      (getDir fs.getIndex (normalizePath path) = none →
        FS.Stat
          { fs.ensureOpen with
              log := fs.log ++
                [{ name := normalizePath path, mode := 0, modTime := fs.clock,
                   deleted := true, content := [] }],
              clock := fs.clock + 1 } path = .error .notExist)) ∧
    ((fs.getIndex).find? (fun x => x.name = normalizePath path) = none →
      getDir fs.getIndex (normalizePath path) ≠ none →
      FS.Remove fs path = .error (.notEmpty (normalizePath path))) ∧
    ((fs.getIndex).find? (fun x => x.name = normalizePath path) = none →
      getDir fs.getIndex (normalizePath path) = none →
      FS.Remove fs path = .error .notExist) := by
  have hidx : fs.ensureOpen.getIndex = fs.getIndex := rfl
  refine ⟨?_, ?_, ?_⟩
  · intro e he
    refine ⟨?_, ?_, ?_, List.prefix_append _ _, ?_⟩
    · unfold FS.Remove
      rw [if_neg (by rw [ensureOpen_rwNil, hro]; simp), hidx, he]
    · exact sivaFind_append_deleted fs.log _ rfl
    · exact (liveIndex_sublist fs.log).subset (List.mem_of_find?_eq_some he)
    · intro hdir
      have hfindnone :
          sivaFind
            (fs.log ++
              [{ name := normalizePath path, mode := 0, modTime := fs.clock,
                 deleted := true, content := [] }]) (normalizePath path) = none :=
        sivaFind_append_deleted fs.log _ rfl
      have hgd :
          getDir
            (liveIndex
              (fs.log ++
                [{ name := normalizePath path, mode := 0, modTime := fs.clock,
                   deleted := true, content := [] }])) (normalizePath path) = none :=
        (getDir_append_deleted_self fs.log _ rfl).trans hdir
      unfold FS.Stat
      unfold sivaFind at hfindnone
      have hredex :
          ({ fs.ensureOpen with
               log := fs.log ++
                 [{ name := normalizePath path, mode := 0, modTime := fs.clock,
                    deleted := true, content := [] }],
               clock := fs.clock + 1 } : FS).ensureOpen.getIndex =
            liveIndex
              (fs.log ++
                [{ name := normalizePath path, mode := 0, modTime := fs.clock,
                   deleted := true, content := [] }]) := rfl
      rw [hredex, hfindnone, hgd]
  · intro hnone hdir
    unfold FS.Remove
    rw [if_neg (by rw [ensureOpen_rwNil, hro]; simp), hidx, hnone]
    obtain ⟨d, hd⟩ := Option.ne_none_iff_exists'.mp hdir
    rw [hd]
  · intro hnone hdir
    unfold FS.Remove
    rw [if_neg (by rw [ensureOpen_rwNil, hro]; simp), hidx, hnone, hdir]

theorem C2_witness :
    FS.Remove fsSingleFile ["x"] =
      .ok { readOnly := false, offset := 0, sessionOpen := true,
            fileWriteModeOpen := false, clock := 6,
            log := [{ name := ["x"], mode := 438, modTime := 1,
                      deleted := false, content := [1, 2] },
                    { name := ["x"], mode := 0, modTime := 5, deleted := true,
                      content := [] }] } ∧
    sivaFind [{ name := ["x"], mode := 438, modTime := 1, deleted := false,
                content := [1, 2] },
              { name := ["x"], mode := 0, modTime := 5, deleted := true,
                content := [] }] ["x"] = none ∧
    FS.Stat { readOnly := false, offset := 0, sessionOpen := true,
              fileWriteModeOpen := false, clock := 6,
              log := [{ name := ["x"], mode := 438, modTime := 1,
                        deleted := false, content := [1, 2] },
                      { name := ["x"], mode := 0, modTime := 5, deleted := true,
                        content := [] }] } ["x"] = .error .notExist ∧
    FS.Remove fsSingleFile ["nope"] = .error .notExist := by
  have happ := (C2_remove_cases_amended fsSingleFile ["x"] rfl).1
    { name := ["x"], mode := 438, modTime := 1, deleted := false,
      content := [1, 2] } (by rfl)
  exact ⟨happ.1, happ.2.1, happ.2.2.2.2 (by rfl),
    (C2_remove_cases_amended fsSingleFile ["nope"] rfl).2.2 (by rfl) (by rfl)⟩

/-! ### Lemmas about empty and non-empty synthesized directories -/

theorem getDir_eq_none_of (idx : List Entry) (p : Path)
    (h : ∀ e ∈ idx,
      ¬(p.isPrefixOf e.name = true ∧ p.length < e.name.length)) :
    getDir idx p = none := by
  have hnil : idx.filter
      (fun e => p.isPrefixOf e.name && decide (p.length < e.name.length)) = [] := by
    rw [List.filter_eq_nil_iff]
    intro e he
    simp only [Bool.and_eq_true, decide_eq_true_eq, not_and]
    intro h1 h2
    exact h e he ⟨h1, h2⟩
  unfold getDir
  rw [hnil]
  rfl

theorem getDir_isSome_of (idx : List Entry) (p : Path) (e : Entry)
    (he : e ∈ idx) (h1 : p.isPrefixOf e.name = true)
    (h2 : p.length < e.name.length) :
    ∃ t, getDir idx p = some (newDirFileInfo p t) := by
  have hmem : e ∈ idx.filter
      (fun e => p.isPrefixOf e.name && decide (p.length < e.name.length)) :=
    List.mem_filter.mpr ⟨he, by simp [h1, h2]⟩
  have hne : idx.filter
      (fun e => p.isPrefixOf e.name && decide (p.length < e.name.length)) ≠ [] := by
    intro hc
    rw [hc] at hmem
    exact absurd hmem (List.not_mem_nil e)
  unfold getDir
  rw [if_neg (by simpa [List.isEmpty_iff] using hne)]
  exact ⟨_, rfl⟩

theorem listFiles_eq_nil_of (idx : List Entry) (p : Path)
    (h : ∀ e ∈ idx,
      ¬(p.isPrefixOf e.name = true ∧ p.length < e.name.length)) :
    listFiles idx p = [] := by
  unfold listFiles
  rw [List.map_eq_nil_iff, List.filter_eq_nil_iff]
  intro e he
  simp only [Bool.and_eq_true, decide_eq_true_eq, not_and]
  intro h1 h2
  exact absurd ⟨h1, by omega⟩ (h e he)

theorem dirsFold_no_contrib (dir : Path) (depth : Nat) (l : List Entry)
    (acc : List (Path × Nat))
    (h : ∀ e ∈ l,
      ¬(dir.isPrefixOf e.name = true ∧ depth + 1 < e.name.length)) :
    dirsFold dir depth l acc = acc := by
  induction l generalizing acc with
  | nil => rfl
  | cons e rest ih =>
    have hrest : ∀ x ∈ rest,
        ¬(dir.isPrefixOf x.name = true ∧ depth + 1 < x.name.length) :=
      fun x hx => h x (List.mem_cons_of_mem _ hx)
    unfold dirsFold
    by_cases h1 : dir.isPrefixOf e.name
    · rw [if_pos h1, if_pos]
      · exact ih _ hrest
      · have h2 : ¬(depth + 1 < e.name.length) :=
          fun hc => h e (List.mem_cons_self e rest) ⟨h1, hc⟩
        omega
    · rw [if_neg h1]
      exact ih _ hrest

/-- C8 counterexample: the archive holds live entries `"a"` (a file) and
`"a/b"`; the entry `"a/b"` extends `"a"`'s path, yet `Stat("a")` yields the
file entry, not a synthesized directory — the claim's converse fails when a
live file occupies the queried path itself. -/
theorem C8_counterexample :
    (∃ e ∈ FS.getIndex fsFileWithChild,
      (["a"] : Path).isPrefixOf e.name = true ∧
      (["a"] : Path).length < e.name.length) ∧
    FS.Stat fsFileWithChild ["a"] =
      .ok { name := "a", size := 1, mode := 438, modTime := 1, isDir := false } ∧
    ({ name := "a", size := 1, mode := 438, modTime := 1,
       isDir := false } : FileInfo).isDir ≠ true :=
  ⟨⟨{ name := ["a", "b"], mode := 438, modTime := 2, deleted := false,
      content := [] }, by decide, by decide, by decide⟩, rfl, by decide⟩

/-- C8 (amended): on a path with no live entry of its own and no live
entries beneath it, `ReadDir` returns an empty list without error while
`Stat` fails not-found; and whenever some live entry lies strictly beneath
the path *and no live entry occupies the path itself*, `Stat` returns a
synthesized directory entry. -/
theorem C8_empty_directory_amended (fs : FS) (path : Path) :
    ((FS.getIndex fs).find? (fun e => e.name = normalizePath path) = none →
     (∀ e ∈ FS.getIndex fs,
        ¬((normalizePath path).isPrefixOf e.name = true ∧
          (normalizePath path).length < e.name.length)) →
      FS.ReadDir fs path = .ok [] ∧ FS.Stat fs path = .error .notExist) ∧
    ((FS.getIndex fs).find? (fun e => e.name = normalizePath path) = none →
     (∃ e ∈ FS.getIndex fs,
        (normalizePath path).isPrefixOf e.name = true ∧
        (normalizePath path).length < e.name.length) →
      ∃ d, FS.Stat fs path = .ok d ∧ d.isDir = true) := by
  have hidx : fs.ensureOpen.getIndex = FS.getIndex fs := rfl
  constructor
  · intro hfind hnone
    constructor
    · unfold FS.ReadDir
      have h1 : listDirs fs.ensureOpen.getIndex (normalizePath path) = [] := by
        unfold listDirs listDirsPairs
        rw [dirsFold_no_contrib]
        · rfl
        · intro e he hx
          exact hnone e he ⟨hx.1, by omega⟩
      have h2 : listFiles fs.ensureOpen.getIndex (normalizePath path) = [] :=
        listFiles_eq_nil_of _ _ hnone
      rw [h1, h2]
      rfl
    · unfold FS.Stat
      rw [hidx, hfind, getDir_eq_none_of _ _ hnone]
  · intro hfind hex
    obtain ⟨e, he, h1, h2⟩ := hex
    obtain ⟨t, ht⟩ :=
      getDir_isSome_of (FS.getIndex fs) (normalizePath path) e he h1 h2
    refine ⟨newDirFileInfo (normalizePath path) t, ?_, rfl⟩
    unfold FS.Stat
    rw [hidx, hfind, ht]

theorem C8_witness :
    FS.ReadDir fs0 ["zzz"] = .ok [] ∧
    FS.Stat fs0 ["zzz"] = .error .notExist ∧
    (∃ d, FS.Stat fsOnlyChild ["a"] = .ok d ∧ d.isDir = true) := by
  have h1 := (C8_empty_directory_amended fs0 ["zzz"]).1 (by rfl)
    (by intro e he; exact absurd he (List.not_mem_nil e))
  have h2 := (C8_empty_directory_amended fsOnlyChild ["a"]).2 (by rfl)
    ⟨{ name := ["a", "b"], mode := 438, modTime := 2, deleted := false,
       content := [] }, by decide, by decide, by decide⟩
  exact ⟨h1.1, h1.2, h2⟩

/-! ### Execution lemmas for the synthesized truncate -/

theorem closeIgnore_read_handle (fs : FS) (h : Handle)
    (hop : h.isClosed = false)
    (h1 : h.flag &&& O_WRONLY = 0) (h2 : h.flag &&& O_RDWR = 0) :
    closeIgnore fs h = ({ h with isClosed := true }, fs) := by
  unfold closeIgnore closeFile
  rw [if_neg (by rw [hop]; simp)]
  by_cases hn : h.hasCloseNotify = true
  · rw [if_neg (by simp [hn])]
    by_cases hr : fs.rwNil = true
    · rw [if_pos hr]
    · rw [if_neg hr, if_neg (by simp [h1, h2])]
  · rw [if_pos (by simp [Bool.not_eq_true] at hn ⊢; exact hn)]

theorem OpenFile_read0 (fs : FS) (p : Path) (m : Nat) (e : Entry)
    (hname : normalizePath p = p) (hfind : sivaFind fs.log p = some e) :
    fs.OpenFile p 0 m = .ok
      ({ name := p, flag := 0, isClosed := false, r := some (e.content, 0),
         hasW := false, hasCloseNotify := false },
       { readOnly := fs.readOnly, offset := fs.offset, sessionOpen := true,
         fileWriteModeOpen := fs.fileWriteModeOpen, clock := fs.clock,
         log := fs.log }) := by
  unfold FS.OpenFile
  rw [if_neg (fun hx => hx.2 (by decide)),
      if_neg (fun hx => hx.1 (by decide)),
      if_neg (fun hx => hx (by decide))]
  unfold FS.openRead
  rw [if_neg (fun hx => hx.elim (fun hy => hy (by decide)) (fun hy => hy (by decide))),
      hname]
  have hlog : fs.ensureOpen.log = fs.log := rfl
  rw [hlog, hfind]
  rfl

theorem Open_reads (fs : FS) (p : Path) (e : Entry)
    (hname : normalizePath p = p) (hfind : sivaFind fs.log p = some e) :
    FS.Open fs p = .ok
      ({ name := p, flag := 0, isClosed := false, r := some (e.content, 0),
         hasW := false, hasCloseNotify := false },
       { readOnly := fs.readOnly, offset := fs.offset, sessionOpen := true,
         fileWriteModeOpen := fs.fileWriteModeOpen, clock := fs.clock,
         log := fs.log }) :=
  OpenFile_read0 fs p 0 e hname hfind

theorem Create_appends (fs : FS) (p : Path)
    (hro : fs.readOnly = false) (hfw : fs.fileWriteModeOpen = false) :
    FS.Create fs p = .ok
      ({ name := normalizePath p, flag := O_WRONLY ||| O_CREATE ||| O_TRUNC,
         isClosed := false, r := none, hasW := true, hasCloseNotify := true },
       { readOnly := fs.readOnly, offset := fs.offset, sessionOpen := true,
         fileWriteModeOpen := true, clock := fs.clock + 1,
         log := fs.log ++
           [{ name := normalizePath p, mode := 438, modTime := fs.clock,
              deleted := false, content := [] }] }) := by
  unfold FS.Create FS.OpenFile
  rw [if_neg (by rw [ensureOpen_rwNil, hro]; simp),
      if_neg (fun hx => absurd hx.2 (by decide)),
      if_pos (by decide),
      if_neg (by rw [ensureOpen_fileWriteModeOpen, hfw]; simp)]
  unfold FS.createFile
  rw [if_neg (by decide)]
  rfl

theorem readIntoBuffer_of_le (c : List Nat) (size : Nat)
    (hsize : size ≤ c.length) :
    readIntoBuffer c size = c.take size := by
  unfold readIntoBuffer
  rw [Nat.min_eq_left hsize, Nat.sub_self, List.replicate_zero, List.append_nil]

theorem fileWrite_append (fs : FS) (h : Handle) (bs : List Nat)
    (L : List Entry) (E : Entry)
    (hop : h.isClosed = false) (hw : h.hasW = true)
    (hsess : fs.sessionOpen = true) (hro : fs.readOnly = false)
    (hlog : fs.log = L ++ [E]) :
    fileWrite fs h bs = .ok (bs.length,
      { fs with log := L ++ [{ E with content := E.content ++ bs }] }) := by
  unfold fileWrite
  rw [if_neg (by rw [hop]; simp), if_neg (by rw [hw]; simp),
      if_neg (by simp [FS.rwNil, hsess, hro])]
  simp only [hlog, List.getLast?_concat, List.dropLast_concat]

theorem closeFile_write_clears (fs : FS) (h : Handle)
    (hop : h.isClosed = false) (hcn : h.hasCloseNotify = true)
    (hwr : h.flag &&& O_WRONLY ≠ 0)
    (hsess : fs.sessionOpen = true) (hro : fs.readOnly = false) :
    closeFile fs h =
      .ok ({ h with isClosed := true }, { fs with fileWriteModeOpen := false }) := by
  unfold closeFile
  rw [if_neg (by rw [hop]; simp), if_neg (by simp [hcn]),
      if_neg (by simp [FS.rwNil, hsess, hro]),
      if_pos (Or.inl (by simpa using hwr))]

/-- C5 (amended): on a read-mode handle over a live entry, `Truncate(size)`
with `size` at most the entry's length runs the synthesized
close/reopen/read/recreate/rewrite/reopen sequence and succeeds; afterwards
the live entry for the handle's name holds exactly the first `size` bytes of
the prior content, the archive log has only grown, and the handle has
adopted the fresh reopened handle's state.  (The original claim's
unrestricted postcondition fails outside this scope — see the
counterexample: `size` beyond the prior length zero-pads, and a create-mode
handle's final reopen supersedes the truncated entry with a fresh empty
one.) -/
theorem C5_truncate_preserves_prefix (fs : FS) (f : Handle) (size : Nat)
    (e : Entry)
    (hro : fs.readOnly = false)
    (hfw : fs.fileWriteModeOpen = false)
    (hop : f.isClosed = false)
    (hflag : f.flag = 0)
    (hname : normalizePath f.name = f.name)
    (hfind : sivaFind fs.log f.name = some e)
    (hsize : size ≤ e.content.length) :
    fileTruncate fs f size =
      (.ok { name := f.name, flag := 0, isClosed := false,
             r := some (e.content.take size, 0), hasW := false,
             hasCloseNotify := false },
       { readOnly := fs.readOnly, offset := fs.offset, sessionOpen := true,
         fileWriteModeOpen := false, clock := fs.clock + 1,
         log := fs.log ++
           [{ name := f.name, mode := 438, modTime := fs.clock,
              deleted := false, content := e.content.take size }] }) ∧
    sivaFind
      (fs.log ++
        [{ name := f.name, mode := 438, modTime := fs.clock,
           deleted := false, content := e.content.take size }]) f.name =
      some { name := f.name, mode := 438, modTime := fs.clock,
             deleted := false, content := e.content.take size } ∧
    fs.log <+:
      (fs.log ++
        [{ name := f.name, mode := 438, modTime := fs.clock,
           deleted := false, content := e.content.take size }]) := by
  have hz1 : (0 : Nat) &&& O_WRONLY = 0 := by decide
  have hz2 : (0 : Nat) &&& O_RDWR = 0 := by decide
  have hz3 : (O_WRONLY ||| O_CREATE ||| O_TRUNC) &&& O_WRONLY ≠ 0 := by decide
  have hw1 : f.flag &&& O_WRONLY = 0 := by rw [hflag]; exact hz1
  have hw2 : f.flag &&& O_RDWR = 0 := by rw [hflag]; exact hz2
  have hclose1 := closeIgnore_read_handle fs f hop hw1 hw2
  have hopen1 := Open_reads fs f.name e hname hfind
  refine ⟨?_, sivaFind_append_live fs.log _ rfl, List.prefix_append _ _⟩
  simp only [fileTruncate, hclose1, hopen1, readIntoBuffer_of_le e.content size hsize]
  have hclose2 := closeIgnore_read_handle
    { readOnly := fs.readOnly, offset := fs.offset, sessionOpen := true,
      fileWriteModeOpen := fs.fileWriteModeOpen, clock := fs.clock,
      log := fs.log }
    { name := f.name, flag := 0, isClosed := false, r := some (e.content, 0),
      hasW := false, hasCloseNotify := false } rfl hz1 hz2
  simp only [hclose2]
  have hcreate := Create_appends
    { readOnly := fs.readOnly, offset := fs.offset, sessionOpen := true,
      fileWriteModeOpen := fs.fileWriteModeOpen, clock := fs.clock,
      log := fs.log } f.name hro hfw
  simp only [hcreate, hname]
  have hwrite := fileWrite_append
    { readOnly := fs.readOnly, offset := fs.offset, sessionOpen := true,
      fileWriteModeOpen := true, clock := fs.clock + 1,
      log := fs.log ++
        [{ name := f.name, mode := 438, modTime := fs.clock, deleted := false,
           content := [] }] }
    { name := f.name, flag := O_WRONLY ||| O_CREATE ||| O_TRUNC,
      isClosed := false, r := none, hasW := true, hasCloseNotify := true }
    (e.content.take size) fs.log
    { name := f.name, mode := 438, modTime := fs.clock, deleted := false,
      content := [] } rfl rfl rfl hro rfl
  simp only [hwrite]
  have hclose3 : closeIgnore
      { readOnly := fs.readOnly, offset := fs.offset, sessionOpen := true,
        fileWriteModeOpen := true, clock := fs.clock + 1,
        log := fs.log ++
          [{ name := f.name, mode := 438, modTime := fs.clock, deleted := false,
             content := [] ++ e.content.take size }] }
      { name := f.name, flag := O_WRONLY ||| O_CREATE ||| O_TRUNC,
        isClosed := false, r := none, hasW := true, hasCloseNotify := true } =
      ({ name := f.name, flag := O_WRONLY ||| O_CREATE ||| O_TRUNC,
         isClosed := true, r := none, hasW := true, hasCloseNotify := true },
       { readOnly := fs.readOnly, offset := fs.offset, sessionOpen := true,
         fileWriteModeOpen := false, clock := fs.clock + 1,
         log := fs.log ++
           [{ name := f.name, mode := 438, modTime := fs.clock, deleted := false,
              content := [] ++ e.content.take size }] }) := by
    unfold closeIgnore
    rw [closeFile_write_clears
      { readOnly := fs.readOnly, offset := fs.offset, sessionOpen := true,
        fileWriteModeOpen := true, clock := fs.clock + 1,
        log := fs.log ++
          [{ name := f.name, mode := 438, modTime := fs.clock, deleted := false,
             content := [] ++ e.content.take size }] }
      { name := f.name, flag := O_WRONLY ||| O_CREATE ||| O_TRUNC,
        isClosed := false, r := none, hasW := true, hasCloseNotify := true }
      rfl rfl hz3 rfl hro]
  simp only [hclose3]
  rw [hflag]
  have hopen2 := OpenFile_read0
    { readOnly := fs.readOnly, offset := fs.offset, sessionOpen := true,
      fileWriteModeOpen := false, clock := fs.clock + 1,
      log := fs.log ++
        [{ name := f.name, mode := 438, modTime := fs.clock, deleted := false,
           content := [] ++ e.content.take size }] } f.name 438
    { name := f.name, mode := 438, modTime := fs.clock, deleted := false,
      content := [] ++ e.content.take size } hname
    (sivaFind_append_live fs.log _ rfl)
  simp only [hopen2]
  rfl

/-- C5 counterexample: the original claim's postcondition — after a
successful `Truncate(size)` the file's content is the first `size` bytes of
the prior content — fails on inputs the claim covers.  With `size = 5` on a
two-byte file, `Truncate` succeeds and the live entry holds the prior bytes
zero-padded to five (the rewrite writes the whole `make([]byte, size)`
buffer).  On a create-mode handle over an in-flight two-byte entry,
`Truncate(1)` succeeds but the final reopen with the original
`O_WRONLY|O_CREATE|O_TRUNC` flags appends a fresh empty entry that
supersedes the truncated one, so the live content is empty, not the one-byte
prefix. -/
theorem C5_counterexample :
    (fileTruncate fsTwoBytes hReadTwo 5).1 =
      .ok { name := ["a"], flag := 0, isClosed := false,
            r := some ([1, 2, 0, 0, 0], 0), hasW := false,
            hasCloseNotify := false } ∧
    (sivaFind (fileTruncate fsTwoBytes hReadTwo 5).2.log ["a"]).map
        Entry.content = some [1, 2, 0, 0, 0] ∧
    ([1, 2, 0, 0, 0] : List Nat) ≠ List.take 5 [1, 2] ∧
    (fileTruncate fsCreateInFlight hCreateInFlight 1).1 =
      .ok { name := ["a"], flag := 577, isClosed := false, r := none,
            hasW := true, hasCloseNotify := true } ∧
    (sivaFind (fileTruncate fsCreateInFlight hCreateInFlight 1).2.log
        ["a"]).map Entry.content = some [] ∧
    ([] : List Nat) ≠ List.take 1 [9, 9] :=
  ⟨rfl, rfl, by decide, rfl, rfl, by decide⟩

theorem C5_witness :
    fileTruncate fsFiveBytes hReadFive 2 =
      (.ok { name := ["a"], flag := 0, isClosed := false,
             r := some ([1, 2], 0), hasW := false, hasCloseNotify := false },
       { readOnly := false, offset := 0, sessionOpen := true,
         fileWriteModeOpen := false, clock := 8,
         log := [{ name := ["a"], mode := 438, modTime := 1, deleted := false,
                   content := [1, 2, 3, 4, 5] },
                 { name := ["a"], mode := 438, modTime := 7, deleted := false,
                   content := [1, 2] }] }) ∧
    sivaFind [{ name := ["a"], mode := 438, modTime := 1, deleted := false,
                content := [1, 2, 3, 4, 5] },
              { name := ["a"], mode := 438, modTime := 7, deleted := false,
                content := [1, 2] }] ["a"] =
      some { name := ["a"], mode := 438, modTime := 7, deleted := false,
             content := [1, 2] } := by
  have happ := C5_truncate_preserves_prefix fsFiveBytes hReadFive 2
    { name := ["a"], mode := 438, modTime := 1, deleted := false,
      content := [1, 2, 3, 4, 5] } rfl rfl rfl rfl rfl (by rfl) (by decide)
  exact ⟨happ.1, happ.2.1⟩

/-! ### The `listDirs` contract: grouping, max modTime, first-seen order -/

theorem max_go (a b : Nat) : (if a < b then b else a) = max a b := by
  rw [Nat.max_def]
  split <;> split <;> omega

theorem dirsFold_cons (dir : Path) (depth : Nat) (e : Entry)
    (rest : List Entry) (acc : List (Path × Nat)) :
    dirsFold dir depth (e :: rest) acc =
      match childDirOf dir depth e with
      | some d => dirsFold dir depth rest (updateAcc acc d e.modTime)
      | none => dirsFold dir depth rest acc := by
  have heq : dirsFold dir depth (e :: rest) acc =
      if dir.isPrefixOf e.name then
        if e.name.length ≤ depth + 1 then dirsFold dir depth rest acc
        else dirsFold dir depth rest
          (updateAcc acc (e.name.take (depth + 1)) e.modTime)
      else dirsFold dir depth rest acc := rfl
  rw [heq]
  unfold childDirOf
  by_cases h1 : dir.isPrefixOf e.name
  · by_cases h2 : e.name.length ≤ depth + 1
    · rw [if_pos h1, if_pos h2, if_neg (fun hx => absurd hx.2 (by omega))]
    · rw [if_pos h1, if_neg h2, if_pos ⟨h1, by omega⟩]
  · rw [if_neg h1, if_neg (fun hx => h1 hx.1)]

theorem updateAcc_cons (d' : Path) (t' : Nat) (rest : List (Path × Nat))
    (d : Path) (t : Nat) :
    updateAcc ((d', t') :: rest) d t =
      if d' = d then (d', if t' < t then t else t') :: rest
      else (d', t') :: updateAcc rest d t := rfl

theorem updateAcc_map_fst (acc : List (Path × Nat)) (d : Path) (t : Nat) :
    (updateAcc acc d t).map Prod.fst =
      if d ∈ acc.map Prod.fst then acc.map Prod.fst
      else acc.map Prod.fst ++ [d] := by
  induction acc with
  | nil => simp [updateAcc]
  | cons p rest ih =>
    obtain ⟨d', t'⟩ := p
    by_cases h : d' = d
    · subst h
      simp [updateAcc]
    · by_cases hm : d ∈ rest.map Prod.fst
      · rw [updateAcc_cons, if_neg h]
        simp only [List.map_cons, ih, if_pos hm]
        rw [if_pos (List.mem_cons_of_mem _ hm)]
      · rw [updateAcc_cons, if_neg h]
        simp only [List.map_cons, ih, if_neg hm]
        rw [if_neg (by
          intro hc
          rcases List.mem_cons.mp hc with hc | hc
          · exact h hc.symm
          · exact hm hc)]
        rfl

theorem assocLookup_updateAcc_self (acc : List (Path × Nat)) (d : Path)
    (t : Nat) :
    assocLookup (updateAcc acc d t) d =
      some (match assocLookup acc d with
            | some t0 => max t0 t
            | none => t) := by
  induction acc with
  | nil => simp [updateAcc, assocLookup]
  | cons p rest ih =>
    obtain ⟨d', t'⟩ := p
    by_cases h : d' = d
    · subst h
      rw [updateAcc_cons, if_pos rfl]
      unfold assocLookup
      rw [if_pos rfl, if_pos rfl, max_go]
    · rw [updateAcc_cons, if_neg h]
      unfold assocLookup
      rw [if_neg h, if_neg h, ih]

theorem assocLookup_updateAcc_ne (acc : List (Path × Nat)) (d' d : Path)
    (t : Nat) (h : d' ≠ d) :
    assocLookup (updateAcc acc d' t) d = assocLookup acc d := by
  induction acc with
  | nil => simp [updateAcc, assocLookup, h]
  | cons p rest ih =>
    obtain ⟨d0, t0⟩ := p
    by_cases h0 : d0 = d'
    · subst h0
      rw [updateAcc_cons, if_pos rfl]
      unfold assocLookup
      rw [if_neg h, if_neg h]
    · rw [updateAcc_cons, if_neg h0]
      unfold assocLookup
      by_cases hd : d0 = d
      · rw [if_pos hd, if_pos hd]
      · rw [if_neg hd, if_neg hd, ih]

theorem dedupFirst_cons (d : Path) (l : List Path) :
    dedupFirst (d :: l) = d :: dedupFirst (l.filter (fun x => x ≠ d)) := by
  rw [dedupFirst.eq_def]

theorem dirsFold_map_fst (dir : Path) (depth : Nat) (l : List Entry) :
    ∀ acc : List (Path × Nat),
    (dirsFold dir depth l acc).map Prod.fst =
      acc.map Prod.fst ++
        dedupFirst ((l.filterMap (childDirOf dir depth)).filter
          (fun d => d ∉ acc.map Prod.fst)) := by
  induction l with
  | nil =>
    intro acc
    simp [dirsFold, dedupFirst]
  | cons e rest ih =>
    intro acc
    rw [dirsFold_cons]
    cases hcd : childDirOf dir depth e with
    | none =>
      rw [ih acc]
      simp only [List.filterMap_cons, hcd]
    | some d' =>
      rw [ih (updateAcc acc d' e.modTime), updateAcc_map_fst]
      simp only [List.filterMap_cons, hcd]
      by_cases hm : d' ∈ acc.map Prod.fst
      · rw [if_pos hm, List.filter_cons_of_neg (by simpa using hm)]
      · rw [if_neg hm, List.filter_cons_of_pos (by simpa using hm),
            dedupFirst_cons, List.append_assoc]
        have hfil : (rest.filterMap (childDirOf dir depth)).filter
              (fun d => d ∉ acc.map Prod.fst ++ [d']) =
            ((rest.filterMap (childDirOf dir depth)).filter
              (fun d => d ∉ acc.map Prod.fst)).filter (fun x => x ≠ d') := by
          rw [List.filter_filter]
          apply List.filter_congr
          intro x _
          by_cases h1 : x = d'
          · subst h1
            simp [List.mem_append]
          · by_cases h2 : x ∈ acc.map Prod.fst
            · simp [List.mem_append, h1, h2]
            · simp [List.mem_append, h1, h2]
        rw [hfil]
        rfl

theorem assocLookup_dirsFold (dir : Path) (depth : Nat) (l : List Entry) :
    ∀ (acc : List (Path × Nat)) (d : Path),
    assocLookup (dirsFold dir depth l acc) d =
      match assocLookup acc d with
      | some t0 => some (((l.filter (fun e =>
          childDirOf dir depth e = some d)).map Entry.modTime).foldl max t0)
      | none =>
        match (l.filter (fun e =>
          childDirOf dir depth e = some d)).map Entry.modTime with
        | [] => none
        | c :: cs => some (cs.foldl max c) := by
  induction l with
  | nil =>
    intro acc d
    cases h : assocLookup acc d <;> simp [dirsFold, h]
  | cons e rest ih =>
    intro acc d
    rw [dirsFold_cons]
    cases hcd : childDirOf dir depth e with
    | none =>
      rw [List.filter_cons_of_neg (by simp [hcd])]
      exact ih acc d
    | some d' =>
      by_cases hdd : d' = d
      · subst hdd
        rw [List.filter_cons_of_pos (by simp [hcd]),
            ih (updateAcc acc d' e.modTime) d', assocLookup_updateAcc_self]
        cases h0 : assocLookup acc d' with
        | some t0 => simp [h0]
        | none => simp [h0]
      · rw [List.filter_cons_of_neg (by simp [hcd, hdd]),
            ih (updateAcc acc d' e.modTime) d,
            assocLookup_updateAcc_ne _ _ _ _ hdd]

theorem mem_of_mem_dedupFirst_aux :
    ∀ (n : Nat) (l : List Path), l.length ≤ n → ∀ x ∈ dedupFirst l, x ∈ l := by
  intro n
  induction n with
  | zero =>
    intro l hl x hx
    have hnil : l = [] := List.length_eq_zero.mp (Nat.le_zero.mp hl)
    subst hnil
    simp [dedupFirst] at hx
  | succ n ih =>
    intro l hl x hx
    cases l with
    | nil => simp [dedupFirst] at hx
    | cons d rest =>
      rw [dedupFirst_cons] at hx
      rcases List.mem_cons.mp hx with heq | hx'
      · subst heq
        exact List.mem_cons_self _ _
      · have hlen : (rest.filter (fun x => x ≠ d)).length ≤ n := by
          have h1 := List.length_filter_le (fun x => decide (x ≠ d)) rest
          simp only [List.length_cons] at hl
          omega
        exact List.mem_cons_of_mem _
          (List.mem_of_mem_filter (ih _ hlen x hx'))

theorem mem_of_mem_dedupFirst (l : List Path) (x : Path)
    (hx : x ∈ dedupFirst l) : x ∈ l :=
  mem_of_mem_dedupFirst_aux l.length l le_rfl x hx

theorem nodup_dedupFirst_aux :
    ∀ (n : Nat) (l : List Path), l.length ≤ n → (dedupFirst l).Nodup := by
  intro n
  induction n with
  | zero =>
    intro l hl
    have hnil : l = [] := List.length_eq_zero.mp (Nat.le_zero.mp hl)
    subst hnil
    simp [dedupFirst]
  | succ n ih =>
    intro l hl
    cases l with
    | nil => simp [dedupFirst]
    | cons d rest =>
      rw [dedupFirst_cons]
      have hlen : (rest.filter (fun x => x ≠ d)).length ≤ n := by
        have h1 := List.length_filter_le (fun x => decide (x ≠ d)) rest
        simp only [List.length_cons] at hl
        omega
      refine List.nodup_cons.mpr ⟨?_, ih _ hlen⟩
      intro hmem
      have h2 := mem_of_mem_dedupFirst _ _ hmem
      have h3 := List.of_mem_filter h2
      simp at h3

theorem nodup_dedupFirst (l : List Path) : (dedupFirst l).Nodup :=
  nodup_dedupFirst_aux l.length l le_rfl

theorem assocLookup_eq_of_mem :
    ∀ (acc : List (Path × Nat)) (d : Path) (t : Nat),
    (acc.map Prod.fst).Nodup → (d, t) ∈ acc → assocLookup acc d = some t := by
  intro acc
  induction acc with
  | nil =>
    intro d t _ hm
    exact absurd hm (List.not_mem_nil _)
  | cons p rest ih =>
    intro d t hnd hm
    obtain ⟨d', t'⟩ := p
    rcases List.mem_cons.mp hm with heq | hm'
    · rw [Prod.mk.injEq] at heq
      unfold assocLookup
      rw [if_pos heq.1.symm, heq.2]
    · by_cases hd : d' = d
      · exfalso
        subst hd
        have hmap : d' ∈ rest.map Prod.fst := by
          have := List.mem_map_of_mem Prod.fst hm'
          simpa using this
        exact (List.nodup_cons.mp (by simpa using hnd)).1 hmap
      · unfold assocLookup
        rw [if_neg hd]
        exact ih d t (List.nodup_cons.mp (by simpa using hnd)).2 hm'

theorem childDirOf_eq_some_iff (dir : Path) (d : Path) (e : Entry)
    (hd : d.length = dir.length + 1) (hdir : dir <+: d) :
    (childDirOf dir dir.length e = some d) ↔
      (d.isPrefixOf e.name = true ∧ d.length < e.name.length) := by
  unfold childDirOf
  constructor
  · intro h
    split at h
    case isTrue hx =>
      have htake : e.name.take (dir.length + 1) = d := Option.some.inj h
      constructor
      · rw [List.isPrefixOf_iff_prefix, ← htake]
        exact List.take_prefix _ _
      · rw [hd]
        exact hx.2
    case isFalse hx => exact absurd h (by simp)
  · intro hx
    obtain ⟨h1, h2⟩ := hx
    have hpre : d <+: e.name := List.isPrefixOf_iff_prefix.mp h1
    have hlen : dir.length + 1 < e.name.length := by
      rw [hd] at h2
      exact h2
    rw [if_pos ⟨by
      rw [List.isPrefixOf_iff_prefix]
      exact hdir.trans hpre, hlen⟩]
    rw [← hd]
    exact congrArg some (List.prefix_iff_eq_take.mp hpre).symm

theorem childDirOf_key_shape (dir : Path) (idx : List Entry) (d : Path)
    (hmem : d ∈ idx.filterMap (childDirOf dir dir.length)) :
    d.length = dir.length + 1 ∧ dir <+: d := by
  obtain ⟨e, _, hcd⟩ := List.mem_filterMap.mp hmem
  unfold childDirOf at hcd
  split at hcd
  case isTrue hx =>
    have htake : e.name.take (dir.length + 1) = d := Option.some.inj hcd
    have hlen : d.length = dir.length + 1 := by
      rw [← htake, List.length_take, Nat.min_eq_left (by omega)]
    refine ⟨hlen, ?_⟩
    have hdire : dir <+: e.name := List.isPrefixOf_iff_prefix.mp hx.1
    rw [List.prefix_iff_eq_take] at hdire ⊢
    rw [← htake, List.take_take, Nat.min_eq_left (by omega)]
    exact hdire
  case isFalse hx => exact absurd hcd (by simp)

theorem contrib_filter_eq (dir : Path) (idx : List Entry) (d : Path)
    (hd : d.length = dir.length + 1) (hdir : dir <+: d) :
    idx.filter (fun e => childDirOf dir dir.length e = some d) =
      idx.filter (fun e =>
        d.isPrefixOf e.name && decide (d.length < e.name.length)) := by
  apply List.filter_congr
  intro e _
  have hiff := childDirOf_eq_some_iff dir d e hd hdir
  by_cases hcc : childDirOf dir dir.length e = some d
  · obtain ⟨h1, h2⟩ := hiff.mp hcc
    simp [hcc, h1, h2]
  · have hneg : ¬(d.isPrefixOf e.name = true ∧ d.length < e.name.length) :=
      fun hx => hcc (hiff.mpr hx)
    by_cases hb1 : d.isPrefixOf e.name
    · have hb2 : ¬(d.length < e.name.length) := fun hx => hneg ⟨hb1, hx⟩
      simp [hcc, hb1, hb2]
    · simp [hcc, hb1]

theorem listDirsPairs_fst (idx : List Entry) (p : Path) :
    (listDirsPairs idx p).map Prod.fst =
      dedupFirst (idx.filterMap (childDirOf p p.length)) := by
  unfold listDirsPairs
  rw [dirsFold_map_fst]
  simp only [List.map_nil, List.nil_append]
  congr 1
  exact List.filter_eq_self.mpr (fun a _ => by simp)

theorem listDirsPairs_modTime (idx : List Entry) (p : Path) (d : Path)
    (t : Nat) (hmem : (d, t) ∈ listDirsPairs idx p) :
    t = maxModTimeUnder idx d := by
  have hkeys := listDirsPairs_fst idx p
  have hnd : ((listDirsPairs idx p).map Prod.fst).Nodup := by
    rw [hkeys]
    exact nodup_dedupFirst _
  have hlk := assocLookup_eq_of_mem _ d t hnd hmem
  have hfold := assocLookup_dirsFold p p.length idx [] d
  rw [show dirsFold p p.length idx [] = listDirsPairs idx p from rfl, hlk] at hfold
  simp only [assocLookup] at hfold
  have hdmem : d ∈ idx.filterMap (childDirOf p p.length) := by
    have hmap : d ∈ (listDirsPairs idx p).map Prod.fst := by
      have := List.mem_map_of_mem Prod.fst hmem
      simpa using this
    rw [hkeys] at hmap
    exact mem_of_mem_dedupFirst _ _ hmap
  obtain ⟨hd, hdir⟩ := childDirOf_key_shape p idx d hdmem
  rw [contrib_filter_eq p idx d hd hdir] at hfold
  unfold maxModTimeUnder
  cases hL : (idx.filter (fun e =>
      d.isPrefixOf e.name && decide (d.length < e.name.length))).map
      Entry.modTime with
  | nil =>
    rw [hL] at hfold
    exact absurd hfold (by simp)
  | cons c cs =>
    rw [hL] at hfold
    have ht := Option.some.inj hfold
    rw [List.foldl_cons, Nat.zero_max]
    exact ht

theorem listDirs_all_isDir (idx : List Entry) (p : Path) :
    ∀ i ∈ listDirs idx p, i.isDir = true := by
  intro i hi
  obtain ⟨pair, _, hpair⟩ := List.mem_map.mp hi
  rw [← hpair]
  rfl

theorem listFiles_all_file (idx : List Entry) (p : Path) :
    ∀ i ∈ listFiles idx p, i.isDir = false := by
  intro i hi
  obtain ⟨e, _, he⟩ := List.mem_map.mp hi
  rw [← he]
  rfl

/-- C3: `ReadDir` returns the synthesized directory children first, then the
direct file children; every synthesized directory info carries the maximum
modification time among the index entries strictly beneath it; and the
directories appear in first-seen order of the index (the key sequence of the
`listDirs` fold is exactly the first occurrence of each child directory in
index order). -/
theorem C3_readdir_dirs_then_files (fs : FS) (path : Path)
    (res : List FileInfo)
    (hres : FS.ReadDir fs path = .ok res) :
    res = listDirs (FS.getIndex fs) (normalizePath path) ++
          listFiles (FS.getIndex fs) (normalizePath path) ∧
    (∀ i ∈ listDirs (FS.getIndex fs) (normalizePath path), i.isDir = true) ∧
    (∀ i ∈ listFiles (FS.getIndex fs) (normalizePath path), i.isDir = false) ∧
    (∀ d t, (d, t) ∈ listDirsPairs (FS.getIndex fs) (normalizePath path) →
      t = maxModTimeUnder (FS.getIndex fs) d) ∧
    (listDirsPairs (FS.getIndex fs) (normalizePath path)).map Prod.fst =
      dedupFirst ((FS.getIndex fs).filterMap
        (childDirOf (normalizePath path) (normalizePath path).length)) := by
  have hr : res = listDirs (FS.getIndex fs) (normalizePath path) ++
      listFiles (FS.getIndex fs) (normalizePath path) := by
    unfold FS.ReadDir at hres
    exact (Except.ok.inj hres).symm
  exact ⟨hr, listDirs_all_isDir _ _, listFiles_all_file _ _,
    fun d t hm => listDirsPairs_modTime _ _ d t hm, listDirsPairs_fst _ _⟩

theorem C3_witness :
    FS.ReadDir fsSpecExample ["a"] =
      .ok [{ name := "sub", size := 0, mode := 0, modTime := 9, isDir := true },
           { name := "x.txt", size := 2, mode := 438, modTime := 5,
             isDir := false }] ∧
    9 = maxModTimeUnder (FS.getIndex fsSpecExample) ["a", "sub"] ∧
    (listDirsPairs (FS.getIndex fsSpecExample) (normalizePath ["a"])).map
        Prod.fst =
      dedupFirst ((FS.getIndex fsSpecExample).filterMap
        (childDirOf (normalizePath ["a"]) (normalizePath ["a"]).length)) := by
  have happ := C3_readdir_dirs_then_files fsSpecExample ["a"]
    [{ name := "sub", size := 0, mode := 0, modTime := 9, isDir := true },
     { name := "x.txt", size := 2, mode := 438, modTime := 5, isDir := false }]
    (by rfl)
  exact ⟨by rfl, happ.2.2.2.1 ["a", "sub"] 9 (by decide), happ.2.2.2.2⟩

end SivaSpec
